import Mathlib

/-!
Verification development for the veripatch `pp` package.

The Python sources under `src/pp/` are shallowly embedded below: pure text
processing is modelled over `String`/`List Char`, the workspace directory is a
map from relative path to file content, fallible code returns `Except String`,
and subprocess-backed steps (git apply, the verification command) are
parameters of the functions that invoke them.  Python `str` operations are
re-implemented over `List Char` so that every definition is executable by the
kernel; `str.splitlines` is modelled as splitting on `'\n'` only (the files
and diffs in scope contain no further Unicode line boundaries), and Python's
regex class `\s` is modelled by its ASCII cases.
-/

namespace VeriPatch

/-- ASCII whitespace, as matched by Python's `str.strip`/`str.split` and the
regex class `\s` (restricted to ASCII). -/
def isPySpace (c : Char) : Bool :=
  c == ' ' || c == '\t' || c == '\n' || c == '\r' || c == '\x0b' || c == '\x0c'

/-- Python `str.strip()`: remove leading and trailing whitespace. -/
def pyStrip (s : String) : String :=
  String.mk (((s.data.dropWhile isPySpace).reverse.dropWhile isPySpace).reverse)

/-- Python `str.startswith` for a single candidate. -/
def strStarts (s pre : String) : Bool :=
  pre.data.isPrefixOf s.data

/-- Python `str.endswith` for a single candidate. -/
def strEnds (s suf : String) : Bool :=
  suf.data.isSuffixOf s.data

/-- Python slicing `s[n:]` (by characters). -/
def strDrop (s : String) (n : Nat) : String :=
  String.mk (s.data.drop n)

/-- Python slicing `s[:n]` (by characters). -/
def strTake (s : String) (n : Nat) : String :=
  String.mk (s.data.take n)

/-- Split a character list on a separator character; always returns at least
one (possibly empty) segment, like Python `str.split(sep)`. -/
def splitCharsOn (sep : Char) : List Char → List (List Char)
  | [] => [[]]
  | c :: rest =>
    match splitCharsOn sep rest with
    | [] => [[c]]
    | seg :: segs => if c == sep then [] :: seg :: segs else (c :: seg) :: segs

/-- Python `str.splitlines()`, modelled for text whose only line boundary is
`'\n'`: the empty string has no lines, and a final newline does not open an
extra empty line. -/
def splitlinesNl (s : String) : List String :=
  match s.data with
  | [] => []
  | cs =>
    let body := if cs.getLast? == some '\n' then cs.dropLast else cs
    (splitCharsOn '\n' body).map String.mk

/-- Join a list of strings with a separator, like Python `sep.join(xs)`. -/
def joinSep (sep : String) : List String → String
  | [] => ""
  | [x] => x
  | x :: y :: rest => x ++ sep ++ joinSep sep (y :: rest)

/-- Python `str.split()` with no argument: split on whitespace runs, dropping
empty fields. -/
def splitWsChars : List Char → List (List Char)
  | [] => []
  | c :: rest =>
    if isPySpace c then splitWsChars rest
    else
      match splitWsChars rest with
      | [] => [[c]]
      | seg :: segs =>
        match rest with
        | [] => [[c]]
        | d :: _ => if isPySpace d then [c] :: seg :: segs else (c :: seg) :: segs

/-- Python `str.split()` (whitespace, no empty fields). -/
def splitWs (s : String) : List String :=
  (splitWsChars s.data).map String.mk

/-- Python `s.split("\t", 1)[0]`: the text up to the first tab. -/
def takeToTab (s : String) : String :=
  String.mk (s.data.takeWhile (fun c => !(c == '\t')))

/-- Scan for an occurrence of `pat` at any position. -/
def containsAux : List Char → List Char → Bool
  | [], pat => pat.isEmpty
  | c :: rest, pat => pat.isPrefixOf (c :: rest) || containsAux rest pat

/-- Python substring test `pat in s`. -/
def containsSub (s pat : String) : Bool :=
  containsAux s.data pat.data

/-- UTF-8 encoded size of one character (mirrors `Char.utf8Size`). -/
def charUtf8Len (c : Char) : Nat :=
  if c.toNat ≤ 0x7f then 1
  else if c.toNat ≤ 0x7ff then 2
  else if c.toNat ≤ 0xffff then 3
  else 4

/-- Python `len(s.encode("utf-8"))`. -/
def utf8Len (s : String) : Nat :=
  (s.data.map charUtf8Len).sum

/-- Python `str.lower()` restricted to ASCII letters. -/
def toLowerAscii (s : String) : String :=
  String.mk (s.data.map fun c =>
    if 'A' ≤ c ∧ c ≤ 'Z' then Char.ofNat (c.toNat + 32) else c)

/-- Distance between two natural numbers, `abs (a - b)` over the integers. -/
def natAbsDiff (a b : Nat) : Nat :=
  max a b - min a b

/-! ### Glob matching (Python `fnmatch.fnmatch` on a POSIX platform)

Python's `fnmatch.translate` turns a glob into a regex: `*` matches any run of
characters (including `/`), `?` any single character, and `[...]` a character
class (leading `!` negates; a `]` right after the opening is literal; an
unterminated class leaves `[` literal; `-` ranges are interpreted by the regex
engine). -/

/-- Scan to the closing `]` of a character class, returning the class body and
the remaining pattern, or `none` when the class is unterminated. -/
def takeToRBracket : List Char → List Char → Option (List Char × List Char)
  | [], _ => none
  | c :: r, acc => if c == ']' then some (acc.reverse, r) else takeToRBracket r (c :: acc)

theorem takeToRBracket_rest_lt (ps : List Char) : ∀ acc body rest,
    takeToRBracket ps acc = some (body, rest) → rest.length < ps.length := by
  induction ps with
  | nil => intro acc body rest h; simp [takeToRBracket] at h
  | cons c r ih =>
    intro acc body rest h
    rw [takeToRBracket] at h
    split at h
    · cases h; simp
    · exact Nat.lt_trans (ih _ _ _ h) (by simp)

/-- Turn a raw class body into (lo, hi) ranges: `a-b` is a range, everything
else matches itself. -/
def parseRanges : List Char → List (Char × Char)
  | a :: '-' :: b :: rest => (a, b) :: parseRanges rest
  | a :: rest => (a, a) :: parseRanges rest
  | [] => []

/-- Negation marker of a class body. -/
def classNeg (ps : List Char) : Bool :=
  match ps with
  | '!' :: _ => true
  | _ => false

/-- Class body after the optional negation marker. -/
def afterNeg (ps : List Char) : List Char :=
  if classNeg ps then ps.tail else ps

/-- A `]` directly after the opening (or after `!`) is a literal member. -/
def classPre (ps : List Char) : List Char :=
  match ps with
  | ']' :: _ => [']']
  | _ => []

/-- Class body after the optional literal `]`. -/
def afterPre (ps : List Char) : List Char :=
  if (classPre ps).isEmpty then ps else ps.tail

theorem afterNeg_length_le (ps : List Char) : (afterNeg ps).length ≤ ps.length := by
  unfold afterNeg
  split
  · exact ps.length_tail.le.trans (Nat.sub_le _ _)
  · exact Nat.le_refl _

theorem afterPre_length_le (ps : List Char) : (afterPre ps).length ≤ ps.length := by
  unfold afterPre
  split
  · exact Nat.le_refl _
  · exact ps.length_tail.le.trans (Nat.sub_le _ _)

/-- Parse a `[...]` class (the pattern after the opening `[`): negation flag,
ranges, and the rest of the pattern.  `none` when the class never closes. -/
def parseClass (ps : List Char) : Option (Bool × List (Char × Char) × List Char) :=
  match takeToRBracket (afterPre (afterNeg ps)) [] with
  | none => none
  | some (body, rest) => some (classNeg ps, parseRanges (classPre (afterNeg ps) ++ body), rest)

theorem parseClass_rest_le (ps : List Char) (neg : Bool) (items : List (Char × Char))
    (rest : List Char) (h : parseClass ps = some (neg, items, rest)) :
    rest.length ≤ ps.length := by
  unfold parseClass at h
  split at h
  · exact absurd h (by simp)
  · rename_i body rest' heq
    cases h
    have h1 := takeToRBracket_rest_lt _ _ _ _ heq
    have h2 := afterPre_length_le (afterNeg ps)
    have h3 := afterNeg_length_le ps
    omega

/-- Does a character satisfy the class. -/
def classMatches (neg : Bool) (items : List (Char × Char)) (c : Char) : Bool :=
  let m := items.any fun r => decide (r.1 ≤ c) && decide (c ≤ r.2)
  if neg then !m else m

/-- Glob matching: pattern against subject.  Structural recursion on a fuel
bound; every recursive call strictly decreases `p.length + s.length` (for the
class case by `parseClass_rest_le`), so fuel `p.length + s.length + 1` always
suffices and the `0` case is never reached at the chosen fuel. -/
def globMatchFuel : Nat → List Char → List Char → Bool
  | 0, _, _ => false
  | _ + 1, [], s => s.isEmpty
  | fuel + 1, '*' :: ps, [] => globMatchFuel fuel ps []
  | fuel + 1, '*' :: ps, c :: s =>
    globMatchFuel fuel ps (c :: s) || globMatchFuel fuel ('*' :: ps) s
  | fuel + 1, '?' :: ps, _ :: s => globMatchFuel fuel ps s
  | _ + 1, '?' :: _, [] => false
  | fuel + 1, '[' :: ps, s =>
    match parseClass ps with
    | none =>
      match s with
      | [] => false
      | c :: s => (c == '[') && globMatchFuel fuel ps s
    | some (neg, items, rest) =>
      match s with
      | [] => false
      | c :: s => classMatches neg items c && globMatchFuel fuel rest s
  | fuel + 1, a :: ps, c :: s => (a == c) && globMatchFuel fuel ps s
  | _ + 1, _ :: _, [] => false

/-- Glob matching at sufficient fuel. -/
def globMatch (p s : List Char) : Bool :=
  globMatchFuel (p.length + s.length + 1) p s

/-- Python `fnmatch.fnmatch(name, pattern)` on POSIX (no case folding). -/
def fnmatchOne (name pat : String) : Bool :=
  globMatch pat.data name.data

/-! ### Policy (`src/pp/config.py`) -/

/-- Resource limits (`config.Limits`). -/
structure Limits where
  max_attempts : Nat := 3
  max_files_changed : Nat := 8
  max_patch_bytes : Nat := 200000
  per_command_timeout_sec : Nat := 600
deriving Repr, DecidableEq

/-- The policy fields the verified components consume (`config.Policy`).
`allowed_argv` is referenced by `session.py` and by the tests but its
declaration is missing from `src/pp/config.py`; the field and the
`command_execution` method are modelled from the spec (§4.1). -/
structure Policy where
  allowed_commands : List String := []
  allowed_argv : List (List String) := []
  write_allowlist : List String := ["**"]
  deny_write : List String := []
  limits : Limits := {}
deriving Repr, DecidableEq

/-- `patch._is_path_allowed`: normalise backslashes, strip leading slashes,
then require some allowlist glob and no deny glob to match. -/
def is_path_allowed (rel_path : String) (policy : Policy) : Bool :=
  let rp := String.mk ((rel_path.data.map fun c => if c == '\\' then '/' else c).dropWhile (· == '/'))
  (policy.write_allowlist.any fun pat => fnmatchOne rp pat) &&
    !(policy.deny_write.any fun pat => fnmatchOne rp pat)

/-! ### Patch data model and parser (`src/pp/patch.py`) -/

/-- One hunk of a unified diff (`patch.Hunk`). -/
structure Hunk where
  old_start : Nat
  old_count : Nat
  new_start : Nat
  new_count : Nat
  lines : List String := []
deriving Repr, DecidableEq

/-- One file entry of a unified diff (`patch.FilePatch`). -/
structure FilePatch where
  old_path : String
  new_path : String
  hunks : List Hunk := []
deriving Repr, DecidableEq

/-- `patch.ParsedPatch`. -/
structure ParsedPatch where
  files : List FilePatch
deriving Repr, DecidableEq

/-- `FilePatch.rel_path` property. -/
def FilePatch.rel_path (fp : FilePatch) : String :=
  let candidate := if fp.new_path ≠ "/dev/null" then fp.new_path else fp.old_path
  if strStarts candidate "a/" || strStarts candidate "b/" then strDrop candidate 2 else candidate

/-- `patch._strip_prefix`: strip whitespace then a leading `a/` or `b/`. -/
def strip_ab (path : String) : String :=
  let p := pyStrip path
  if strStarts p "a/" || strStarts p "b/" then strDrop p 2 else p

/-- Read a run of at least one ASCII digit, returning its value. -/
def parseDigits (cs : List Char) : Option (Nat × List Char) :=
  let digits := cs.takeWhile Char.isDigit
  if digits.isEmpty then none
  else some (digits.foldl (fun a c => a * 10 + (c.toNat - 48)) 0, cs.drop digits.length)

/-- Consume at least one whitespace character (regex `\s+`). -/
def skipSpaces1 (cs : List Char) : Option (List Char) :=
  match cs with
  | c :: r => if isPySpace c then some (r.dropWhile isPySpace) else none
  | [] => none

/-- Optional `,count` group; when the comma is not followed by digits the
group does not participate (and the comma is left in place), defaulting the
count to 1 exactly as `int(match.group(n) or "1")` does. -/
def parseOptCount (cs : List Char) : Nat × List Char :=
  match cs with
  | ',' :: rest =>
    match parseDigits rest with
    | some (v, r) => (v, r)
    | none => (1, cs)
  | _ => (1, cs)

/-- The hunk-header regex `_HUNK_RE = ^@@\s+-(\d+)(,(\d+))?\s+\+(\d+)(,(\d+))?\s+@@`
as a prefix match (trailing text after the closing `@@` is allowed). -/
def parseHunkHeader (line : String) : Option (Nat × Nat × Nat × Nat) :=
  match line.data with
  | '@' :: '@' :: r0 =>
    match skipSpaces1 r0 with
    | none => none
    | some r1 =>
      match r1 with
      | '-' :: r2 =>
        match parseDigits r2 with
        | none => none
        | some (o, r3) =>
          let (oc, r4) := parseOptCount r3
          match skipSpaces1 r4 with
          | none => none
          | some r5 =>
            match r5 with
            | '+' :: r6 =>
              match parseDigits r6 with
              | none => none
              | some (n, r7) =>
                let (nc, r8) := parseOptCount r7
                match skipSpaces1 r8 with
                | none => none
                | some r9 =>
                  match r9 with
                  | '@' :: '@' :: _ => some (o, oc, n, nc)
                  | _ => none
            | _ => none
      | _ => none
  | _ => none

/-- Lines on which the hunk-body loop of `parse_unified_diff` breaks. -/
def hunkBreak (l : String) : Bool :=
  strStarts l "@@ " || strStarts l "--- " || strStarts l "diff --git"

/-- Hunk-body normalisation: a body line not starting with space, `+` or `-`
gets a leading space reinstated and is treated as a context line. -/
def normalizeBody (l : String) : String :=
  if strStarts l " " || strStarts l "+" || strStarts l "-" then l else " " ++ l

/-- Parser state: completed files, the file under construction (old path, new
path, completed hunks), the hunk whose body is being read, and an old-path
pending its `+++` partner. -/
structure PState where
  doneFiles : List FilePatch := []
  curFile : Option (String × String × List Hunk) := none
  curHunk : Option Hunk := none
  pendingOld : Option String := none
deriving Repr, DecidableEq

/-- Close the open hunk into the file under construction. -/
def flushHunk (cf : Option (String × String × List Hunk)) (ch : Option Hunk) :
    Option (String × String × List Hunk) :=
  match ch with
  | none => cf
  | some h => cf.map fun (o, n, hs) => (o, n, hs ++ [h])

/-- Close the open hunk and the file under construction. -/
def flushFile (done : List FilePatch) (cf : Option (String × String × List Hunk))
    (ch : Option Hunk) : List FilePatch :=
  match flushHunk cf ch with
  | none => done
  | some (o, n, hs) => done ++ [⟨o, n, hs⟩]

/-- One line of `parse_unified_diff`'s scan.  The Python `while` loop over the
line index is equivalent to this left fold: the inner hunk-body loop
corresponds to the `curHunk.isSome` branch, and its break lines fall through
to the header handling. -/
def parseStep (st : PState) (l : String) : Except String PState :=
  match st.pendingOld with
  | some oldp =>
    if strStarts l "+++ " then
      .ok { doneFiles := flushFile st.doneFiles st.curFile st.curHunk,
            curFile := some (oldp, takeToTab (pyStrip (strDrop l 4)), []),
            curHunk := none, pendingOld := none }
    else .error "Malformed patch: expected +++ line"
  | none =>
    if st.curHunk.isSome && !(hunkBreak l) then
      if strStarts l "\\ No newline at end of file" then .ok st
      else .ok { st with curHunk := st.curHunk.map fun h => { h with lines := h.lines ++ [normalizeBody l] } }
    else
      let st1 : PState := { st with curFile := flushHunk st.curFile st.curHunk, curHunk := none }
      if strStarts l "diff --git" then .ok st1
      else if strStarts l "--- " then
        .ok { st1 with pendingOld := some (takeToTab (pyStrip (strDrop l 4))) }
      else if strStarts l "@@ " then
        match st1.curFile with
        | none => .error "Malformed patch: hunk without file header"
        | some _ =>
          match parseHunkHeader l with
          | none => .error ("Malformed hunk header: " ++ l)
          | some (o, oc, n, nc) => .ok { st1 with curHunk := some ⟨o, oc, n, nc, []⟩ }
      else .ok st1

/-- `patch.parse_unified_diff`. -/
def parse_unified_diff (diff_text : String) : Except String ParsedPatch :=
  match (splitlinesNl diff_text).foldlM parseStep {} with
  | .error e => .error e
  | .ok final =>
    if final.pendingOld.isSome then .error "Malformed patch: expected +++ line"
    else if (flushFile final.doneFiles final.curFile final.curHunk).isEmpty then
      .error "Patch did not contain any files"
    else .ok ⟨flushFile final.doneFiles final.curFile final.curHunk⟩

/-! ### Applying patches (`src/pp/patch.py`)

The workspace directory is modelled as a map from relative path to file
content; `none` means the file does not exist.  The applying functions return
the error outcome together with the workspace as mutated up to the point of
failure, mirroring that the Python code writes each file as it goes. -/

/-- A workspace: relative path to text content. -/
def Workspace : Type := String → Option String

/-- Write (or delete, with `none`) one path of a workspace. -/
def wsUpdate (ws : Workspace) (k : String) (v : Option String) : Workspace :=
  fun p => if p = k then v else ws p

/-- `apply_unified_diff.line_matches`: exact equality, or — when the payload
itself begins with a space — equality after restoring one more leading space
(the space lost by the missing-context-marker normalisation). -/
def line_matches (actual payload : String) : Bool :=
  actual == payload || (strStarts payload " " && actual == " " ++ payload)

/-- The cursor walk of `can_apply_hunk_at`: every context or removal payload
must match the file line under the cursor. -/
def canApplyAux (lines : List String) : List String → Nat → Bool
  | [], _ => true
  | hline :: rest, cursor =>
    let marker := strTake hline 1
    let payload := strDrop hline 1
    if marker == " " || marker == "-" then
      match lines.get? cursor with
      | none => false
      | some actual => line_matches actual payload && canApplyAux lines rest (cursor + 1)
    else canApplyAux lines rest cursor

/-- `apply_unified_diff.can_apply_hunk_at` (start indices are naturals here,
so only the upper bound of the Python range guard is meaningful). -/
def can_apply_hunk_at (lines : List String) (hunk : Hunk) (start_idx : Nat) : Bool :=
  if start_idx > lines.length then false
  else canApplyAux lines hunk.lines start_idx

/-- Keep the candidate closer to `s`, preferring the incumbent on ties (the
Python `min(..., key=...)` keeps the first minimum). -/
def closerTo (s best x : Nat) : Nat :=
  if natAbsDiff x s < natAbsDiff best s then x else best

/-- First candidate with minimal distance to `s` among `c :: cs`. -/
def argminDist (s : Nat) (c : Nat) (cs : List Nat) : Nat :=
  cs.foldl (closerTo s) c

/-- Does a hunk line anchor the hunk (context or removal line). -/
def isAnchorLine (l : String) : Bool :=
  strStarts l " " || strStarts l "-"

/-- The error message raised when no candidate start index exists: it names
the file, the hunk's `old_start` and up to three anchor-line previews. -/
def contextMismatchMsg (rel_path : String) (hunk : Hunk) : String :=
  let anchors := ((hunk.lines.filter isAnchorLine).map fun l => pyStrip (strDrop l 1)).filter
    fun a => a ≠ ""
  let preview := strTake (joinSep " | " (anchors.take 3)) 220
  "Context mismatch applying patch to " ++ rel_path ++
    "; no matching hunk anchor near old_start=" ++ Nat.repr hunk.old_start ++
    "; anchors=" ++ (if preview == "" then "(none)" else preview)

/-- Clamp a (possibly negative) start index into `[0, n]`. -/
def clampIdx (suggested_idx : Int) (n : Nat) : Nat :=
  (max 0 (min suggested_idx (n : Int))).toNat

/-- `apply_unified_diff.resolve_hunk_start`. -/
def resolve_hunk_start (lines : List String) (hunk : Hunk) (suggested_idx : Int)
    (rel_path : String) : Except String Nat :=
  let suggested : Nat := clampIdx suggested_idx lines.length
  let has_anchor := hunk.lines.any isAnchorLine
  if !has_anchor then .ok suggested
  else if can_apply_hunk_at lines hunk suggested then .ok suggested
  else
    match (List.range (lines.length + 1)).filter (fun i => can_apply_hunk_at lines hunk i) with
    | [] => .error (contextMismatchMsg rel_path hunk)
    | c :: cs => .ok (argminDist suggested c cs)

/-- The replacement walk of the hunk-application loop: returns the final
cursor and the replacement block. -/
def hunkReplace (lines : List String) (rel_path : String) :
    List String → Nat → List String → Except String (Nat × List String)
  | [], cursor, repl => .ok (cursor, repl)
  | hline :: rest, cursor, repl =>
    let marker := strTake hline 1
    let payload := strDrop hline 1
    if marker == " " then
      match lines.get? cursor with
      | some actual =>
        if line_matches actual payload then
          hunkReplace lines rel_path rest (cursor + 1) (repl ++ [actual])
        else .error ("Context mismatch applying patch to " ++ rel_path)
      | none => .error ("Context mismatch applying patch to " ++ rel_path)
    else if marker == "-" then
      match lines.get? cursor with
      | some actual =>
        if line_matches actual payload then hunkReplace lines rel_path rest (cursor + 1) repl
        else .error ("Removal mismatch applying patch to " ++ rel_path)
      | none => .error ("Removal mismatch applying patch to " ++ rel_path)
    else if marker == "+" then hunkReplace lines rel_path rest cursor (repl ++ [payload])
    else hunkReplace lines rel_path rest cursor repl

/-- Apply one hunk at a resolved start index: splice the replacement over
`lines[idx:cursor]` and report the offset delta. -/
def applyHunk (lines : List String) (hunk : Hunk) (idx : Nat) (rel_path : String) :
    Except String (List String × Int) :=
  match hunkReplace lines rel_path hunk.lines idx [] with
  | .error e => .error e
  | .ok (cursor, repl) =>
    .ok (lines.take idx ++ repl ++ lines.drop cursor,
         (repl.length : Int) - ((cursor : Int) - (idx : Int)))

/-- The per-file hunk loop of `apply_unified_diff`, carrying the accumulated
offset. -/
def applyHunksFold (rel_path : String) : List Hunk → List String → Int → Except String (List String)
  | [], lines, _ => .ok lines
  | hunk :: rest, lines, offset =>
    let idx0 : Int := (hunk.old_start : Int) - 1 + offset
    let idx1 : Int := if hunk.old_count == 0 then max 0 (idx0 + 1) else idx0
    match resolve_hunk_start lines hunk idx1 rel_path with
    | .error e => .error e
    | .ok idx =>
      match applyHunk lines hunk idx rel_path with
      | .error e => .error e
      | .ok (lines2, delta) => applyHunksFold rel_path rest lines2 (offset + delta)

/-- Reassemble the post-image text: join the lines, restore the recorded
trailing newline, and (for file creation) append one more newline. -/
def postText (lines : List String) (had_trailing : Bool) (old_is_dev_null : Bool) : String :=
  let t0 := joinSep "\n" lines
  let t1 := if !lines.isEmpty && had_trailing then t0 ++ "\n" else t0
  if old_is_dev_null && !lines.isEmpty then t1 ++ "\n" else t1

/-- The content-level effect of one file patch on the pre-image (`none` means
the target does not exist / is deleted). -/
def fileOutcome (fp : FilePatch) (rel_path : String) (old : Option String) :
    Except String (Option String) :=
  let old_is_dev_null := fp.old_path == "/dev/null"
  let read : Except String (List String × Bool) :=
    if old_is_dev_null then .ok ([], true)
    else
      match old with
      | none => .error ("Target file does not exist: " ++ rel_path)
      | some raw => .ok (splitlinesNl raw, strEnds raw "\n")
  match read with
  | .error e => .error e
  | .ok (original_lines, had_trailing) =>
    match applyHunksFold rel_path fp.hunks original_lines 0 with
    | .error e => .error e
    | .ok lines =>
      if fp.new_path == "/dev/null" then .ok none
      else .ok (some (postText lines had_trailing old_is_dev_null))

/-- One iteration of the file loop of `apply_unified_diff`: path checks, then
the content effect, then the single write/delete of the target. -/
def applyFilePatch (policy : Policy) (fp : FilePatch) (ws : Workspace) :
    Except String (Workspace × String) :=
  let rel0 := fp.rel_path
  if rel0 == "/dev/null" then .error "Unsupported patch target path"
  else
    let rel := strip_ab rel0
    if !is_path_allowed rel policy then .error ("Patch path is not allowed by policy: " ++ rel)
    else
      match fileOutcome fp rel (ws rel) with
      | .error e => .error e
      | .ok outcome => .ok (wsUpdate ws rel outcome, rel)

/-- The file loop: on failure the workspace keeps the files already written. -/
def applyFilesGo (policy : Policy) : List FilePatch → Workspace → List String →
    (Except String (List String)) × Workspace
  | [], ws, acc => (.ok acc, ws)
  | fp :: rest, ws, acc =>
    match applyFilePatch policy fp ws with
    | .error e => (.error e, ws)
    | .ok (ws2, rel) => applyFilesGo policy rest ws2 (acc ++ [rel])

/-- `patch.apply_unified_diff`. -/
def apply_unified_diff (diff_text : String) (ws : Workspace) (policy : Policy) :
    (Except String (List String)) × Workspace :=
  match parse_unified_diff diff_text with
  | .error e => (.error e, ws)
  | .ok parsed =>
    if parsed.files.length > policy.limits.max_files_changed then
      (.error ("Patch changes " ++ Nat.repr parsed.files.length ++ " files, above max " ++
        Nat.repr policy.limits.max_files_changed), ws)
    else if utf8Len diff_text > policy.limits.max_patch_bytes then
      (.error ("Patch size exceeds " ++ Nat.repr policy.limits.max_patch_bytes ++ " bytes"), ws)
    else applyFilesGo policy parsed.files ws []

/-! ### Constraint validation and the fallback entry point -/

/-- Record a changed path, skipping empties, `/dev/null` and duplicates. -/
def addPath (acc : List String) (rel : String) : List String :=
  if rel == "" || rel == "/dev/null" || acc.contains rel then acc else acc ++ [rel]

/-- The line scan of `patch._extract_changed_paths`. -/
def extractGo : List String → Option String → List String → List String
  | [], _, acc => acc
  | l :: rest, pending, acc =>
    if strStarts l "diff --git " then
      let parts := splitWs l
      if parts.length ≥ 4 then
        let p3 := parts.getD 3 ""
        let candidate := if p3 ≠ "/dev/null" then p3 else parts.getD 2 ""
        extractGo rest pending (addPath acc (strip_ab candidate))
      else extractGo rest pending acc
    else if strStarts l "--- " then
      extractGo rest (some (takeToTab (pyStrip (strDrop l 4)))) acc
    else if strStarts l "+++ " then
      match pending with
      | some oldp =>
        let newp := takeToTab (pyStrip (strDrop l 4))
        let candidate := if newp ≠ "/dev/null" then newp else oldp
        extractGo rest none (addPath acc (strip_ab candidate))
      | none => extractGo rest pending acc
    else extractGo rest pending acc

/-- `patch._extract_changed_paths`. -/
def extract_changed_paths (diff_text : String) : List String :=
  extractGo (splitlinesNl diff_text) none []

/-- `patch.patch_line_change_counts`: additions and deletions. -/
def patch_line_change_counts (diff_text : String) : Nat × Nat :=
  (splitlinesNl diff_text).foldl
    (fun (ad : Nat × Nat) l =>
      if strStarts l "diff --git " || strStarts l "--- " || strStarts l "+++ " ||
          strStarts l "@@ " || strStarts l "\\ No newline" then ad
      else if strStarts l "+" then (ad.1 + 1, ad.2)
      else if strStarts l "-" then (ad.1, ad.2 + 1)
      else ad)
    (0, 0)

/-- `patch._validate_patch_constraints`. -/
def validate_patch_constraints (diff_text : String) (policy : Policy) :
    Except String (List String) :=
  let patch_bytes := utf8Len diff_text
  if patch_bytes > policy.limits.max_patch_bytes then
    .error ("Patch size exceeds " ++ Nat.repr policy.limits.max_patch_bytes ++ " bytes")
  else if containsSub diff_text "GIT binary patch" then
    .error "Binary patches are not supported"
  else
    let changed_paths := extract_changed_paths diff_text
    if changed_paths.isEmpty then .error "Patch did not contain any file targets"
    else
      let ad := patch_line_change_counts diff_text
      if ad.1 + ad.2 == 0 then .error "Patch contains no line-level edits"
      else if changed_paths.length > policy.limits.max_files_changed then
        .error ("Patch changes " ++ Nat.repr changed_paths.length ++ " files, above max " ++
          Nat.repr policy.limits.max_files_changed)
      else
        match changed_paths.find? (fun p => !is_path_allowed p policy) with
        | some p => .error ("Patch path is not allowed by policy: " ++ p)
        | none => .ok changed_paths

/-- `patch.apply_patch_with_fallback`.  The git-apply subprocess is a
parameter: `none` when `_can_use_git_apply` is false, otherwise the effect of
`git apply` on the workspace.  Validation runs before any apply path. -/
def apply_patch_with_fallback (gitApply : Option (Workspace → Except String Workspace))
    (diff_text : String) (ws : Workspace) (policy : Policy) :
    (Except String (List String)) × Workspace :=
  match validate_patch_constraints diff_text policy with
  | .error e => (.error e, ws)
  | .ok changed_paths =>
    match gitApply with
    | some g =>
      match g ws with
      | .ok ws2 => (.ok changed_paths, ws2)
      | .error ge =>
        match apply_unified_diff diff_text ws policy with
        | (.ok _, ws2) => (.ok changed_paths, ws2)
        | (.error pe, ws2) =>
          (.error ("Patch apply failed (git apply: " ++ ge ++ "; parser: " ++ pe ++ ")"), ws2)
    | none =>
      match apply_unified_diff diff_text ws policy with
      | (.ok _, ws2) => (.ok changed_paths, ws2)
      | (.error pe, ws2) => (.error pe, ws2)

/-- `patch.render_patch_from_filepatches`. -/
def render_patch_from_filepatches (files : List FilePatch) : String :=
  if files.isEmpty then ""
  else
    let out := files.flatMap fun fp =>
      ["--- " ++ fp.old_path, "+++ " ++ fp.new_path] ++ fp.hunks.flatMap fun h =>
        ("@@ -" ++ Nat.repr h.old_start ++ "," ++ Nat.repr h.old_count ++ " +" ++
          Nat.repr h.new_start ++ "," ++ Nat.repr h.new_count ++ " @@") :: h.lines
    pyStrip (joinSep "\n" out) ++ "\n"

/-! ### Attestation (`src/pp/attest.py`)

A bundle directory is its list of (relative path, byte content) pairs — the
files other than `attestation.json`, which is held separately — listed in the
sorted order `_iter_bundle_files` produces.  The cryptographic primitives
(`hashlib.sha256` over bytes and over UTF-8 strings, and `hmac.new(...,
sha256)`) are parameters of every definition: their only property used by the
code is determinism, and tamper evidence additionally needs the two digests
in question to differ, which appears as an explicit hypothesis.  The
canonical JSON of `_canonical_json_bytes` is rendered concretely (keys
sorted, minimal separators; names in scope need no JSON escaping).
`created_at_unix` is wall-clock time, is never read by verification, and is
omitted. -/

/-- Digest record of one bundle file. -/
structure FileDigest where
  sha256 : String
  bytes : Nat
deriving Repr, DecidableEq

/-- `_statement_for_bundle`'s result. -/
structure Statement where
  version : String
  bundle_manifest_sha256 : String
  files : List (String × FileDigest)
deriving Repr, DecidableEq

/-- The `signing` object of an attestation. -/
structure Signing where
  mode : String
  key_env : String
  signature : Option String
  key_id : Option String
deriving Repr, DecidableEq

/-- The attestation document (minus the timestamp). -/
structure Attestation where
  version : String
  statement : Statement
  signing : Signing
deriving Repr, DecidableEq

/-- A bundle directory: content files plus the optional `attestation.json`. -/
structure BundleDir where
  files : List (String × List Nat)
  attest : Option Attestation
deriving Repr, DecidableEq

/-- Lexicographic order on character lists by code point (Python string
comparison, as used by `sorted` over the bundle paths). -/
def charListLe : List Char → List Char → Bool
  | [], _ => true
  | _ :: _, [] => false
  | a :: as, b :: bs =>
    if a.toNat < b.toNat then true
    else if b.toNat < a.toNat then false
    else charListLe as bs

/-- Insertion into a path-sorted file list. -/
def insertByKey (x : String × List Nat) : List (String × List Nat) → List (String × List Nat)
  | [] => [x]
  | y :: ys => if charListLe x.1.data y.1.data then x :: y :: ys else y :: insertByKey x ys

/-- The sorted traversal of `_iter_bundle_files`. -/
def sortByKey (l : List (String × List Nat)) : List (String × List Nat) :=
  l.foldr insertByKey []

/-- Render a JSON string (names in scope need no escaping). -/
def jsonStr (s : String) : String := "\"" ++ s ++ "\""

/-- One `"path": (sha256, bytes)` member, keys sorted. -/
def canonFileEntry (p : String) (d : FileDigest) : String :=
  jsonStr p ++ ":\x7b\"bytes\":" ++ Nat.repr d.bytes ++ ",\"sha256\":" ++ jsonStr d.sha256 ++ "\x7d"

/-- Canonical JSON of the files manifest object. -/
def canonFilesJson (files : List (String × FileDigest)) : String :=
  "\x7b\"files\":\x7b" ++ joinSep "," (files.map fun e => canonFileEntry e.1 e.2) ++ "\x7d\x7d"

/-- Canonical JSON of a statement, keys sorted. -/
def canonStatementJson (st : Statement) : String :=
  "\x7b\"bundle_manifest_sha256\":" ++ jsonStr st.bundle_manifest_sha256 ++
    ",\"files\":\x7b" ++ joinSep "," (st.files.map fun e => canonFileEntry e.1 e.2) ++
    "\x7d,\"version\":" ++ jsonStr st.version ++ "\x7d"

/-- `attest._statement_for_bundle`. -/
def statement_for_bundle (sha256Bytes : List Nat → String) (sha256Str : String → String)
    (files : List (String × List Nat)) : Statement :=
  let fds := (sortByKey files).map fun e => (e.1, FileDigest.mk (sha256Bytes e.2) e.2.length)
  { version := "pp-attestation-statement/v1",
    bundle_manifest_sha256 := sha256Str (canonFilesJson fds),
    files := fds }

/-- `attest.create_attestation` (the written `attestation.json` content). -/
def create_attestation (sha256Bytes : List Nat → String) (sha256Str : String → String)
    (hmacHex : String → String → String) (env : String → Option String)
    (files : List (String × List Nat)) (mode key_env : String) : Except String Attestation :=
  let mode_norm := toLowerAscii (pyStrip mode)
  if mode_norm ≠ "none" ∧ mode_norm ≠ "hmac-sha256" then
    .error ("Unsupported attestation mode: " ++ mode)
  else
    let statement := statement_for_bundle sha256Bytes sha256Str files
    if mode_norm == "hmac-sha256" then
      match env key_env with
      | none => .error ("Attestation mode hmac-sha256 requires environment variable " ++ key_env)
      | some key =>
        if key == "" then
          .error ("Attestation mode hmac-sha256 requires environment variable " ++ key_env)
        else
          .ok { version := "pp-attestation/v1", statement := statement,
                signing := { mode := mode_norm, key_env := key_env,
                             signature := some (hmacHex key (canonStatementJson statement)),
                             key_id := some (strTake (sha256Str key) 16) } }
    else
      .ok { version := "pp-attestation/v1", statement := statement,
            signing := { mode := mode_norm, key_env := key_env,
                         signature := none, key_id := none } }

/-- Run `create_attestation` against a bundle directory and write the result
into it. -/
def createOnDir (sha256Bytes : List Nat → String) (sha256Str : String → String)
    (hmacHex : String → String → String) (env : String → Option String)
    (d : BundleDir) (mode key_env : String) : Except String BundleDir :=
  (create_attestation sha256Bytes sha256Str hmacHex env d.files mode key_env).map
    fun a => { d with attest := some a }

/-- Result dictionary of `verify_attestation`. -/
structure VerifyResult where
  ok : Bool
  content_valid : Bool
  signature_valid : Bool
  signature_error : Option String
deriving Repr, DecidableEq

/-- `attest.verify_attestation`. -/
def verify_attestation (sha256Bytes : List Nat → String) (sha256Str : String → String)
    (hmacHex : String → String → String) (env : String → Option String)
    (d : BundleDir) : VerifyResult :=
  match d.attest with
  | none =>
    { ok := false, content_valid := false, signature_valid := false, signature_error := none }
  | some att =>
    let statement_saved := att.statement
    let statement_current := statement_for_bundle sha256Bytes sha256Str d.files
    let content_valid := decide (statement_saved = statement_current)
    let mode := toLowerAscii (pyStrip att.signing.mode)
    if mode == "none" then
      { ok := content_valid, content_valid := content_valid, signature_valid := true,
        signature_error := none }
    else if mode == "hmac-sha256" then
      let ke := if att.signing.key_env == "" then "PP_ATTEST_HMAC_KEY" else att.signing.key_env
      match env ke with
      | none =>
        { ok := false, content_valid := content_valid, signature_valid := false,
          signature_error := some ("Missing environment variable for verification: " ++ ke) }
      | some key =>
        if key == "" then
          { ok := false, content_valid := content_valid, signature_valid := false,
            signature_error := some ("Missing environment variable for verification: " ++ ke) }
        else
          let expected := hmacHex key (canonStatementJson statement_saved)
          let given := att.signing.signature.getD ""
          let sv := expected == given
          { ok := content_valid && sv, content_valid := content_valid, signature_valid := sv,
            signature_error := if sv then none else some "Signature mismatch" }
    else
      { ok := false, content_valid := content_valid, signature_valid := false,
        signature_error := some ("Unsupported signing mode: " ++ mode) }

/-! ### Patch minimisation (`src/pp/minimize.py`)

The sandbox reconstitution, candidate apply and verification run of each
candidate are summarised by an oracle `accept : List FilePatch → Bool` (the
Python accepts a candidate when `apply_unified_diff` does not raise on the
fresh copy and the verify command exits 0). -/

/-- Total number of hunks across the file patches. -/
def totalHunks (files : List FilePatch) : Nat :=
  (files.map fun fp => fp.hunks.length).sum

/-- Remove hunk `hi` of file `fi` (no filtering yet). -/
def setHunks : List FilePatch → Nat → Nat → List FilePatch
  | [], _, _ => []
  | fp :: rest, 0, hi => { fp with hunks := fp.hunks.eraseIdx hi } :: rest
  | fp :: rest, fi + 1, hi => fp :: setHunks rest fi hi

/-- One candidate of the minimisation loop: drop hunk `hi` of file `fi` and
discard file entries left with no hunks. -/
def dropHunk (files : List FilePatch) (fi hi : Nat) : List FilePatch :=
  (setHunks files fi hi).filter fun fp => !fp.hunks.isEmpty

/-- Scan the hunk indices of file `fi` for an accepted candidate. -/
def tryHunks (accept : List FilePatch → Bool) (files : List FilePatch) (fi : Nat) :
    List Hunk → Nat → Option (List FilePatch)
  | [], _ => none
  | _ :: hrest, hi =>
    let c := dropHunk files fi hi
    if accept c then some c else tryHunks accept files fi hrest (hi + 1)

/-- Scan the files in order for an accepted candidate. -/
def tryFiles (accept : List FilePatch → Bool) (files : List FilePatch) :
    List FilePatch → Nat → Option (List FilePatch)
  | [], _ => none
  | fp :: rest, fi =>
    match tryHunks accept files fi fp.hunks 0 with
    | some c => some c
    | none => tryFiles accept files rest (fi + 1)

/-- One full pass of `minimize_patch_hunks`: the first accepted single-hunk
drop, or `none` when a full pass drops nothing. -/
def minimizeStep (accept : List FilePatch → Bool) (files : List FilePatch) :
    Option (List FilePatch) :=
  tryFiles accept files files 0

theorem totalHunks_filter_le (p : FilePatch → Bool) (l : List FilePatch) :
    totalHunks (l.filter p) ≤ totalHunks l := by
  induction l with
  | nil => simp [totalHunks]
  | cons fp rest ih =>
    simp only [totalHunks, List.map_cons, List.sum_cons, List.filter_cons] at ih ⊢
    split
    · simp only [List.map_cons, List.sum_cons]
      omega
    · omega

theorem totalHunks_setHunks_lt (files : List FilePatch) : ∀ fi hi fp,
    files.get? fi = some fp → hi < fp.hunks.length →
    totalHunks (setHunks files fi hi) < totalHunks files := by
  induction files with
  | nil => intro fi hi fp h; simp at h
  | cons f rest ih =>
    intro fi hi fp h hlt
    cases fi with
    | zero =>
      simp only [List.get?_cons_zero, Option.some.injEq] at h
      subst h
      simp only [setHunks, totalHunks, List.map_cons, List.sum_cons]
      have hlen := List.length_eraseIdx_add_one hlt
      omega
    | succ fi =>
      simp only [List.get?_cons_succ] at h
      have := ih fi hi fp h hlt
      simp only [setHunks, totalHunks, List.map_cons, List.sum_cons] at this ⊢
      omega

theorem tryHunks_some (accept : List FilePatch → Bool) (files : List FilePatch) (fi : Nat) :
    ∀ hs hi c, tryHunks accept files fi hs hi = some c →
      ∃ k, k < hs.length ∧ c = dropHunk files fi (hi + k) := by
  intro hs
  induction hs with
  | nil => intro hi c h; simp [tryHunks] at h
  | cons hd hrest ih =>
    intro hi c h
    rw [tryHunks] at h
    split at h
    · cases h
      exact ⟨0, by simp, by simp⟩
    · obtain ⟨k, hk, hc⟩ := ih (hi + 1) c h
      exact ⟨k + 1, by simpa using hk, by rw [hc]; ring_nf⟩

theorem tryFiles_some_lt (accept : List FilePatch → Bool) (files : List FilePatch) :
    ∀ rest fi c, files.drop fi = rest → tryFiles accept files rest fi = some c →
      totalHunks c < totalHunks files := by
  intro rest
  induction rest with
  | nil => intro fi c _ h; simp [tryFiles] at h
  | cons fp rest ih =>
    intro fi c hdrop h
    rw [tryFiles] at h
    have hget : files.get? fi = some fp := by
      have h0 : (files.drop fi).get? 0 = some fp := by rw [hdrop]; rfl
      rwa [List.get?_drop, Nat.add_zero] at h0
    cases hc0 : tryHunks accept files fi fp.hunks 0 with
    | some c0 =>
      rw [hc0] at h
      obtain ⟨k, hk, hc⟩ := tryHunks_some accept files fi fp.hunks 0 c0 hc0
      have hcc : c = dropHunk files fi (0 + k) := by
        injection h with h2
        rw [← h2, hc]
      rw [hcc]
      exact Nat.lt_of_le_of_lt (totalHunks_filter_le _ _)
        (totalHunks_setHunks_lt files fi (0 + k) fp hget (by omega))
    | none =>
      rw [hc0] at h
      refine ih (fi + 1) c ?_ h
      have htl : (files.drop fi).tail = files.drop (fi + 1) := by
        rw [← List.drop_drop]
        simp [List.drop_one]
      rw [hdrop] at htl
      simpa using htl.symm

theorem minimizeStep_some_lt (accept : List FilePatch → Bool) (files c : List FilePatch)
    (h : minimizeStep accept files = some c) : totalHunks c < totalHunks files :=
  tryFiles_some_lt accept files files 0 c rfl h

/-- The outer `while made_progress` loop of `minimize_patch_hunks`: rerun the
pass on the reduced patch until a pass drops nothing.  Total because every
accepted drop strictly decreases the hunk count. -/
def minimizeLoop (accept : List FilePatch → Bool) (files : List FilePatch) : List FilePatch :=
  match h : minimizeStep accept files with
  | none => files
  | some c => minimizeLoop accept c
termination_by totalHunks files
decreasing_by exact minimizeStep_some_lt accept files c h

/-- `minimize.minimize_patch_hunks`: parse, loop, re-render. -/
def minimize_patch_hunks (accept : List FilePatch → Bool) (patch_text : String) :
    Except String String :=
  if pyStrip patch_text == "" then .ok patch_text
  else
    match parse_unified_diff patch_text with
    | .error e => .error e
    | .ok parsed =>
      let current := minimizeLoop accept parsed.files
      .ok (if current.isEmpty then "" else render_patch_from_filepatches current)

/-! ### Command policy (`src/pp/config.py` and spec §4.1) -/

/-- `config.Policy.is_command_allowed`: strip, then exact membership in the
stripped allowed set. -/
def Policy.is_command_allowed (p : Policy) (cmd : String) : Bool :=
  (p.allowed_commands.map pyStrip).contains (pyStrip cmd)

/-- Shell-split tokenisation (Python `shlex.split`, POSIX mode): whitespace
separates tokens, single quotes are literal, double quotes admit `\"` and
`\\` escapes, and a bare backslash escapes the next character.  Python raises
on an unterminated quote or trailing escape; this total model lets those
consume to the end of the string. -/
def shlexGo : List Char → Nat → Bool → List Char → List String → List String
  | [], _, started, cur, toks => if started then toks ++ [String.mk cur] else toks
  | c :: rest, 0, started, cur, toks =>
    if isPySpace c then
      if started then shlexGo rest 0 false [] (toks ++ [String.mk cur])
      else shlexGo rest 0 false [] toks
    else if c == '\'' then shlexGo rest 1 true cur toks
    else if c == '"' then shlexGo rest 2 true cur toks
    else if c == '\\' then
      match rest with
      | [] => shlexGo [] 0 true cur toks
      | d :: r2 => shlexGo r2 0 true (cur ++ [d]) toks
    else shlexGo rest 0 true (cur ++ [c]) toks
  | c :: rest, 1, started, cur, toks =>
    if c == '\'' then shlexGo rest 0 started cur toks
    else shlexGo rest 1 started (cur ++ [c]) toks
  | c :: rest, _, started, cur, toks =>
    if c == '"' then shlexGo rest 0 started cur toks
    else if c == '\\' then
      match rest with
      | [] => shlexGo [] 2 started (cur ++ ['\\']) toks
      | d :: r2 =>
        if d == '"' || d == '\\' then shlexGo r2 2 started (cur ++ [d]) toks
        else shlexGo r2 2 started (cur ++ ['\\', d]) toks
    else shlexGo rest 2 started (cur ++ [c]) toks

/-- Python `shlex.split`. -/
def shlexSplit (s : String) : List String :=
  shlexGo s.data 0 false [] []

/-- Modelled from the spec: `Policy.command_execution` is called by
`session.SessionController._run_targets` and constructed in the tests, but
its definition is missing from `src/pp/config.py`.  Per §4.1, the engine
accepts a command that `is_command_allowed` accepts, and also one whose
shell-split tokenisation equals a configured `allowed_argv` vector, returning
that vector for argv-form execution. -/
def Policy.command_execution (p : Policy) (cmd : String) : Bool × Option (List String) :=
  if p.is_command_allowed cmd then (true, none)
  else
    match p.allowed_argv.find? (fun v => v == shlexSplit cmd) with
    | some v => (true, some v)
    | none => (false, none)

/-! ## Theorems about the claims -/

/-- C7 counterexample: a patch text with a file header pair and zero hunks is
parsed successfully (into one file entry with no hunks), so `parse_unified_diff`
does not raise for it as the claim states. -/
theorem claim_C7_counterexample :
    parse_unified_diff "--- a/x\n+++ b/x\n" = .ok ⟨[⟨"a/x", "b/x", []⟩]⟩ := rfl

/-- C7 (amended): `parse_unified_diff` fails for an empty patch text, and in
general succeeds only with at least one file entry; a patch text with file
headers but zero hunks parses successfully into a file entry with no hunks,
and is rejected only later by constraint validation for containing no
line-level edits. -/
theorem claim_C7 :
    parse_unified_diff "" = .error "Patch did not contain any files" ∧
    (∀ d ps, parse_unified_diff d = .ok ps → ps.files ≠ []) ∧
    parse_unified_diff "--- a/x\n+++ b/x\n" = .ok ⟨[⟨"a/x", "b/x", []⟩]⟩ ∧
    validate_patch_constraints "--- a/x\n+++ b/x\n" {} =
      .error "Patch contains no line-level edits" := by
  refine ⟨rfl, ?_, rfl, rfl⟩
  intro d ps h
  rw [parse_unified_diff] at h
  split at h
  · exact absurd h (by simp)
  · split at h
    · exact absurd h (by simp)
    · split at h
      · exact absurd h (by simp)
      · rename_i hne
        injection h with h2
        intro hnil
        apply hne
        have hX := congrArg ParsedPatch.files h2
        rw [hnil] at hX
        exact List.isEmpty_eq_true.mpr hX

/-- C7 witness for the quantified clause. -/
theorem claim_C7_witness :
    (⟨[⟨"a/x", "b/x", []⟩]⟩ : ParsedPatch).files ≠ [] :=
  claim_C7.2.1 "--- a/x\n+++ b/x\n" ⟨[⟨"a/x", "b/x", []⟩]⟩ rfl

/-- C5 counterexample: the claim says a file line matching the payload with
one extra leading space is accepted, but when the payload does not itself
begin with a space the code rejects it: `" x"` is exactly `"x"` with one
extra leading space, yet `line_matches " x" "x"` is false. -/
theorem claim_C5_counterexample :
    line_matches " x" "x" = false ∧ (" x" : String) = " " ++ "x" := ⟨rfl, rfl⟩

/-- C5 (amended): a hunk body line that does not begin with space, `+` or `-`
gets a leading space reinstated by the parser and is stored as a context
line; during application a file line matches a context/removal payload
exactly when it equals the payload or — when the payload itself begins with a
space — equals the payload with one extra leading space; a hunk whose context
lines lost their leading space still applies (shown on the repository's own
missing-context-marker example). -/
theorem claim_C5 :
    (∀ (st : PState) (h0 : Hunk) (l : String),
        st.pendingOld = none → st.curHunk = some h0 →
        hunkBreak l = false →
        strStarts l "\\ No newline at end of file" = false →
        strStarts l " " = false → strStarts l "+" = false → strStarts l "-" = false →
        parseStep st l = .ok { st with curHunk := some { h0 with lines := h0.lines ++ [" " ++ l] } }) ∧
    (∀ a p, line_matches a p = true ↔ (a = p ∨ (strStarts p " " = true ∧ a = " " ++ p))) ∧
    ((apply_unified_diff
        "--- a/math_utils.py\n+++ b/math_utils.py\n@@ -2,7 +2,7 @@\ndef add(a, b):\n-    return a + c\n+    return a + b\n"
        (fun p => if p = "math_utils.py" then some "def add(a, b):\n    return a + c\n" else none)
        { write_allowlist := ["math_utils.py"] }).1 = .ok ["math_utils.py"] ∧
      (apply_unified_diff
        "--- a/math_utils.py\n+++ b/math_utils.py\n@@ -2,7 +2,7 @@\ndef add(a, b):\n-    return a + c\n+    return a + b\n"
        (fun p => if p = "math_utils.py" then some "def add(a, b):\n    return a + c\n" else none)
        { write_allowlist := ["math_utils.py"] }).2 "math_utils.py" =
        some "def add(a, b):\n    return a + b\n") := by
  refine ⟨?_, ?_, rfl, rfl⟩
  · intro st h0 l hpend hcur hbrk hnonl hsp hpl hmn
    have hnorm : normalizeBody l = " " ++ l := by
      simp [normalizeBody, hsp, hpl, hmn]
    cases st with
    | mk doneFiles curFile curHunk pendingOld =>
      simp only at hpend hcur
      subst hpend
      subst hcur
      simp [parseStep, hbrk, hnonl, hnorm]
  · intro a p
    simp [line_matches]

/-- C5 witness for the quantified clauses. -/
theorem claim_C5_witness :
    parseStep { curFile := some ("a/f", "b/f", []), curHunk := some ⟨1, 1, 1, 1, []⟩ } "foo" =
      .ok { curFile := some ("a/f", "b/f", []), curHunk := some ⟨1, 1, 1, 1, [" foo"]⟩ } ∧
    line_matches "  x" " x" = true :=
  ⟨claim_C5.1 _ ⟨1, 1, 1, 1, []⟩ "foo" rfl rfl rfl rfl rfl rfl rfl,
   (claim_C5.2.1 "  x" " x").mpr (Or.inr ⟨rfl, rfl⟩)⟩

/-! Helper lemmas about trailing newlines of reassembled post-images. -/

theorem strEnds_nl_iff (s : String) :
    strEnds s "\n" = true ↔ s.data.getLast? = some '\n' := by
  have hnl : ("\n" : String).data = ['\n'] := rfl
  rw [List.getLast?_eq_head?_reverse]
  cases hrev : s.data.reverse with
  | nil => simp [strEnds, List.isSuffixOf, hnl, hrev, List.isPrefixOf]
  | cons b bs =>
    simp only [strEnds, List.isSuffixOf, hnl, hrev, List.isPrefixOf, List.reverse_cons,
      List.reverse_nil, List.nil_append, List.head?_cons]
    constructor
    · intro h
      have := (Bool.and_eq_true _ _).mp h
      simp only [beq_iff_eq] at this
      rw [this.1]
    · intro h
      injection h with h2
      simp [h2]

theorem str_data_ne_nil_of_ne (s : String) (h : s ≠ "") : s.data ≠ [] := by
  intro hd
  apply h
  cases s with
  | mk data => simp at hd; rw [hd]

theorem joinSep_nl_getLast (lines : List String) : ∀ lst : String, lst ≠ "" →
    lines.getLast? = some lst →
    (joinSep "\n" lines).data ≠ [] ∧
      (joinSep "\n" lines).data.getLast? = lst.data.getLast? := by
  induction lines with
  | nil => intro lst _ hlast; simp at hlast
  | cons x rest ih =>
    intro lst hne hlast
    cases rest with
    | nil =>
      have hx : x = lst := by simpa using hlast
      subst hx
      exact ⟨str_data_ne_nil_of_ne _ hne, rfl⟩
    | cons y rest2 =>
      rw [List.getLast?_cons_cons] at hlast
      obtain ⟨hjne, hjl⟩ := ih lst hne hlast
      have hjoin : joinSep "\n" (x :: y :: rest2) = x ++ "\n" ++ joinSep "\n" (y :: rest2) := rfl
      rw [hjoin]
      obtain ⟨z, hz⟩ := Option.isSome_iff_exists.mp (List.getLast?_isSome.mpr hjne)
      constructor
      · simp only [String.data_append, ne_eq, List.append_eq_nil]
        intro ⟨_, h2⟩
        exact hjne h2
      · simp only [String.data_append, List.getLast?_append, hz, Option.or_some]
        rw [← hz]
        exact hjl

/-- C6 counterexample: applying a file-creation patch that implies the single
post-image `"x\n"` writes `"x\n\n"` — an extra duplicated trailing newline —
contradicting the claim's file-creation clause. -/
theorem claim_C6_counterexample :
    (apply_unified_diff "--- /dev/null\n+++ b/a.txt\n@@ -0,0 +1,1 @@\n+x\n"
      (fun _ => none) {}).2 "a.txt" = some "x\n\n" ∧
    (apply_unified_diff "--- /dev/null\n+++ b/a.txt\n@@ -0,0 +1,1 @@\n+x\n"
      (fun _ => none) {}).1 = .ok ["a.txt"] ∧
    ("x\n\n" : String) ≠ "x\n" := by
  refine ⟨rfl, rfl, by decide⟩

/-- C6 (amended): for an existing target whose resulting line list is
nonempty and ends in a nonempty newline-free line, the post-image ends with a
trailing newline iff the pre-image did (the recorded property is re-applied
through `fileOutcome`); an empty resulting line list yields an empty
post-image with no newline; for file creation the engine appends two
newlines after the joined lines — a duplicated extra one. -/
theorem claim_C6 :
    (∀ lines pt (lst : String), lines.getLast? = some lst → lst ≠ "" →
        lst.data.getLast? ≠ some '\n' → strEnds (postText lines pt false) "\n" = pt) ∧
    (∀ pt dev, postText [] pt dev = "") ∧
    (∀ lines, lines ≠ [] → postText lines true true = joinSep "\n" lines ++ "\n" ++ "\n") ∧
    (∀ fp rel raw lines, fp.old_path ≠ "/dev/null" → fp.new_path ≠ "/dev/null" →
        applyHunksFold rel fp.hunks (splitlinesNl raw) 0 = .ok lines →
        fileOutcome fp rel (some raw) = .ok (some (postText lines (strEnds raw "\n") false))) := by
  refine ⟨?_, ?_, ?_, ?_⟩
  · intro lines pt lst hlast hne hlstnl
    have hlnonnil : lines ≠ [] := by
      intro h
      rw [h] at hlast
      simp at hlast
    obtain ⟨hjw, hjl⟩ := joinSep_nl_getLast lines lst hne hlast
    have hempty : lines.isEmpty = false := by simpa using hlnonnil
    cases pt with
    | true =>
      have hp : postText lines true false = joinSep "\n" lines ++ "\n" := by
        simp [postText, hempty]
      rw [hp, strEnds_nl_iff]
      simp
    | false =>
      have hp : postText lines false false = joinSep "\n" lines := by
        simp [postText, hempty]
      rw [hp]
      cases hb : strEnds (joinSep "\n" lines) "\n" with
      | false => rfl
      | true => exact absurd (hjl ▸ (strEnds_nl_iff _).mp hb) hlstnl
  · intro pt dev
    simp [postText, joinSep]
  · intro lines hne
    have hempty : lines.isEmpty = false := by simpa using hne
    simp [postText, hempty]
  · intro fp rel raw lines hold hnew happly
    have hold2 : (fp.old_path == "/dev/null") = false := by simpa using hold
    have hnew2 : (fp.new_path == "/dev/null") = false := by simpa using hnew
    simp only [fileOutcome, hold2, Bool.false_eq_true, if_false]
    rw [happly]
    simp [hnew2]

/-- C6 witness for the quantified clauses. -/
theorem claim_C6_witness :
    strEnds (postText ["a"] true false) "\n" = true ∧
    postText [] false true = "" ∧
    postText ["x"] true true = joinSep "\n" ["x"] ++ "\n" ++ "\n" ∧
    fileOutcome ⟨"a/f", "b/f", []⟩ "f" (some "a") =
      .ok (some (postText ["a"] (strEnds "a" "\n") false)) :=
  ⟨claim_C6.1 ["a"] true "a" rfl (by decide) (by decide),
   claim_C6.2.1 false true,
   claim_C6.2.2.1 ["x"] (by decide),
   claim_C6.2.2.2 ⟨"a/f", "b/f", []⟩ "f" "a" ["a"] (by decide) (by decide) rfl⟩

/-- If constraint validation succeeds, every extracted path passed the policy
path check (and the returned list is exactly the extracted list). -/
theorem validate_ok_all_allowed (d : String) (policy : Policy) (c : List String)
    (h : validate_patch_constraints d policy = .ok c) :
    c = extract_changed_paths d ∧
      ∀ p ∈ extract_changed_paths d, is_path_allowed p policy = true := by
  simp only [validate_patch_constraints] at h
  split at h
  · exact absurd h (by simp)
  · split at h
    · exact absurd h (by simp)
    · split at h
      · exact absurd h (by simp)
      · split at h
        · exact absurd h (by simp)
        · split at h
          · exact absurd h (by simp)
          · split at h
            · exact absurd h (by simp)
            · rename_i hfind
              injection h with h2
              refine ⟨h2.symm, ?_⟩
              intro p hp
              have := List.find?_eq_none.mp hfind p hp
              simpa using this

/-- C3: when some resolved target path of the diff fails the policy path
check, `apply_patch_with_fallback` fails (validation precedes both the git
apply and the in-process apply) and the workspace is returned unchanged,
for every git-apply behaviour. -/
theorem claim_C3 (gitApply : Option (Workspace → Except String Workspace))
    (d : String) (ws : Workspace) (policy : Policy)
    (hbad : ∃ p ∈ extract_changed_paths d, is_path_allowed p policy = false) :
    (apply_patch_with_fallback gitApply d ws policy).1.isOk = false ∧
    (apply_patch_with_fallback gitApply d ws policy).2 = ws := by
  cases hv : validate_patch_constraints d policy with
  | error e =>
    simp [apply_patch_with_fallback, hv, Except.isOk, Except.toBool]
  | ok c =>
    obtain ⟨p, hp, hfail⟩ := hbad
    have hall := (validate_ok_all_allowed d policy c hv).2 p hp
    rw [hall] at hfail
    exact absurd hfail (by simp)

/-- C3 witness: the spec's policy-denies-write scenario. -/
theorem claim_C3_witness :
    (apply_patch_with_fallback none
      "--- a/secrets/x.txt\n+++ b/secrets/x.txt\n@@ -1,1 +1,1 @@\n-a\n+b\n"
      (fun p => if p = "secrets/x.txt" then some "a\n" else none)
      { write_allowlist := ["src/**"], deny_write := ["secrets/**"] }).1.isOk = false ∧
    (apply_patch_with_fallback none
      "--- a/secrets/x.txt\n+++ b/secrets/x.txt\n@@ -1,1 +1,1 @@\n-a\n+b\n"
      (fun p => if p = "secrets/x.txt" then some "a\n" else none)
      { write_allowlist := ["src/**"], deny_write := ["secrets/**"] }).2 =
      (fun p => if p = "secrets/x.txt" then some "a\n" else none) :=
  claim_C3 none _ _ _ ⟨"secrets/x.txt", by decide, by decide⟩

/-- C4: the pre-application constraint validation accepts a patch of exactly
`max_patch_bytes` UTF-8 bytes and rejects one of `max_patch_bytes + 1`;
it accepts a patch touching exactly `max_files_changed` files and rejects
one touching `max_files_changed + 1` (all under the remaining validity
conditions of the other checks). -/
theorem claim_C4 (policy : Policy) (d : String) :
    (utf8Len d = policy.limits.max_patch_bytes →
      containsSub d "GIT binary patch" = false →
      extract_changed_paths d ≠ [] →
      (patch_line_change_counts d).1 + (patch_line_change_counts d).2 ≠ 0 →
      (extract_changed_paths d).length ≤ policy.limits.max_files_changed →
      (∀ p ∈ extract_changed_paths d, is_path_allowed p policy = true) →
      validate_patch_constraints d policy = .ok (extract_changed_paths d)) ∧
    (utf8Len d = policy.limits.max_patch_bytes + 1 →
      validate_patch_constraints d policy =
        .error ("Patch size exceeds " ++ Nat.repr policy.limits.max_patch_bytes ++ " bytes")) ∧
    ((extract_changed_paths d).length = policy.limits.max_files_changed →
      utf8Len d ≤ policy.limits.max_patch_bytes →
      containsSub d "GIT binary patch" = false →
      extract_changed_paths d ≠ [] →
      (patch_line_change_counts d).1 + (patch_line_change_counts d).2 ≠ 0 →
      (∀ p ∈ extract_changed_paths d, is_path_allowed p policy = true) →
      validate_patch_constraints d policy = .ok (extract_changed_paths d)) ∧
    ((extract_changed_paths d).length = policy.limits.max_files_changed + 1 →
      utf8Len d ≤ policy.limits.max_patch_bytes →
      containsSub d "GIT binary patch" = false →
      (patch_line_change_counts d).1 + (patch_line_change_counts d).2 ≠ 0 →
      validate_patch_constraints d policy =
        .error ("Patch changes " ++ Nat.repr (extract_changed_paths d).length ++
          " files, above max " ++ Nat.repr policy.limits.max_files_changed)) := by
  refine ⟨?_, ?_, ?_, ?_⟩
  · intro hbytes hbin hne hedits hcount hall
    simp only [validate_patch_constraints]
    rw [if_neg (by omega), if_neg (by simp [hbin]), if_neg (by simpa using hne),
      if_neg (by simpa using hedits), if_neg (by omega)]
    have hfind : (extract_changed_paths d).find? (fun p => !is_path_allowed p policy) = none :=
      List.find?_eq_none.mpr (fun p hp => by simp [hall p hp])
    rw [hfind]
  · intro hbytes
    simp only [validate_patch_constraints]
    rw [if_pos (by omega)]
  · intro hcount hbytes hbin hne hedits hall
    simp only [validate_patch_constraints]
    rw [if_neg (by omega), if_neg (by simp [hbin]), if_neg (by simpa using hne),
      if_neg (by simpa using hedits), if_neg (by omega)]
    have hfind : (extract_changed_paths d).find? (fun p => !is_path_allowed p policy) = none :=
      List.find?_eq_none.mpr (fun p hp => by simp [hall p hp])
    rw [hfind]
  · intro hcount hbytes hbin hedits
    have hne : ¬(extract_changed_paths d).isEmpty = true := by
      simp only [List.isEmpty_eq_true]
      intro h
      rw [h] at hcount
      simp at hcount
    simp only [validate_patch_constraints]
    rw [if_neg (by omega), if_neg (by simp [hbin]), if_neg hne,
      if_neg (by simpa using hedits), if_pos (by omega)]

/-- C4 witness: concrete boundary inputs for all four clauses. -/
theorem claim_C4_witness :
    validate_patch_constraints "--- a/a\n+++ b/a\n@@ -1,1 +1,1 @@\n-x\n+y"
        { limits := { max_patch_bytes := utf8Len "--- a/a\n+++ b/a\n@@ -1,1 +1,1 @@\n-x\n+y" } } =
      .ok (extract_changed_paths "--- a/a\n+++ b/a\n@@ -1,1 +1,1 @@\n-x\n+y") ∧
    validate_patch_constraints "--- a/a\n+++ b/a\n@@ -1,1 +1,1 @@\n-x\n+y"
        { limits := { max_patch_bytes := utf8Len "--- a/a\n+++ b/a\n@@ -1,1 +1,1 @@\n-x\n+y" - 1 } } =
      .error ("Patch size exceeds " ++
        Nat.repr (utf8Len "--- a/a\n+++ b/a\n@@ -1,1 +1,1 @@\n-x\n+y" - 1) ++ " bytes") ∧
    validate_patch_constraints
        "--- a/a\n+++ b/a\n@@ -1,1 +1,1 @@\n-x\n+y\n--- a/b\n+++ b/b\n@@ -1,1 +1,1 @@\n-x\n+y"
        { limits := { max_files_changed := 2 } } =
      .ok (extract_changed_paths
        "--- a/a\n+++ b/a\n@@ -1,1 +1,1 @@\n-x\n+y\n--- a/b\n+++ b/b\n@@ -1,1 +1,1 @@\n-x\n+y") ∧
    validate_patch_constraints
        "--- a/a\n+++ b/a\n@@ -1,1 +1,1 @@\n-x\n+y\n--- a/b\n+++ b/b\n@@ -1,1 +1,1 @@\n-x\n+y"
        { limits := { max_files_changed := 1 } } =
      .error ("Patch changes " ++
        Nat.repr (extract_changed_paths
          "--- a/a\n+++ b/a\n@@ -1,1 +1,1 @@\n-x\n+y\n--- a/b\n+++ b/b\n@@ -1,1 +1,1 @@\n-x\n+y").length ++
        " files, above max " ++ Nat.repr 1) :=
  ⟨(claim_C4 _ _).1 rfl (by decide) (by decide) (by decide) (by decide) (by decide),
   (claim_C4 _ _).2.1 (by decide),
   (claim_C4 _ _).2.2.1 (by decide) (by decide) (by decide) (by decide) (by decide) (by decide),
   (claim_C4 _ _).2.2.2 (by decide) (by decide) (by decide) (by decide)⟩

/-- C8: `is_command_allowed` accepts exactly the commands whose stripped form
is in the stripped allowed set; the engine additionally accepts a command
whose shell-split tokenisation equals a configured `allowed_argv` vector,
returning that vector for argv-form execution. -/
theorem claim_C8 (p : Policy) (cmd : String) :
    (p.is_command_allowed cmd = true ↔ pyStrip cmd ∈ p.allowed_commands.map pyStrip) ∧
    ((p.command_execution cmd).1 = true ↔
      (p.is_command_allowed cmd = true ∨ shlexSplit cmd ∈ p.allowed_argv)) ∧
    (p.is_command_allowed cmd = false → shlexSplit cmd ∈ p.allowed_argv →
      p.command_execution cmd = (true, some (shlexSplit cmd))) := by
  refine ⟨?_, ?_, ?_⟩
  · simp [Policy.is_command_allowed, List.contains_iff_exists_mem_beq]
  · cases hic : p.is_command_allowed cmd with
    | true => simp [Policy.command_execution, hic]
    | false =>
      simp only [Policy.command_execution, hic, Bool.false_eq_true, if_false,
        false_or]
      cases hf : p.allowed_argv.find? (fun v => v == shlexSplit cmd) with
      | some v =>
        simp only
        constructor
        · intro _
          have hvmem := List.mem_of_find?_eq_some hf
          have hveq : v = shlexSplit cmd := by
            have := List.find?_some hf
            simpa using this
          rw [← hveq]
          exact hvmem
        · intro _; trivial
      | none =>
        simp only
        constructor
        · intro h; exact absurd h (by simp)
        · intro hmem
          have := List.find?_eq_none.mp hf _ hmem
          simp at this
  · intro hic hmem
    simp only [Policy.command_execution, hic, Bool.false_eq_true, if_false]
    cases hf : p.allowed_argv.find? (fun v => v == shlexSplit cmd) with
    | some v =>
      have hveq : v = shlexSplit cmd := by
        have := List.find?_some hf
        simpa using this
      rw [hveq]
    | none =>
      have := List.find?_eq_none.mp hf _ hmem
      simp at this

/-- C8 witness: the repository's own `allowed_argv` test case. -/
theorem claim_C8_witness :
    ({ allowed_commands := ["pytest -q "] : Policy }).is_command_allowed " pytest -q" = true ∧
    ({ allowed_argv := [["python", "-c", "print(1)"]] : Policy }).command_execution
        "python -c 'print(1)'" = (true, some (shlexSplit "python -c 'print(1)'")) :=
  ⟨(claim_C8 _ _).1.mpr (by decide),
   (claim_C8 _ _).2.2 (by decide) (by decide)⟩

/-- The outer minimisation loop always reaches a pass that drops nothing. -/
theorem minimizeLoop_fix_aux (accept : List FilePatch → Bool) :
    ∀ n files, totalHunks files ≤ n →
      minimizeStep accept (minimizeLoop accept files) = none := by
  intro n
  induction n with
  | zero =>
    intro files hle
    rw [minimizeLoop]
    split
    · assumption
    · rename_i c hc
      have := minimizeStep_some_lt accept files c hc
      omega
  | succ n ih =>
    intro files hle
    rw [minimizeLoop]
    split
    · assumption
    · rename_i c hc
      have := minimizeStep_some_lt accept files c hc
      exact ih c (by omega)

/-- C9: for an arbitrary accept oracle (apply-and-verify outcome of a
candidate), every pass that drops a hunk strictly decreases the total hunk
count, and the loop — total by well-founded recursion on that count — stops
exactly when a full pass over the remaining hunks drops none. -/
theorem claim_C9 (accept : List FilePatch → Bool) (files : List FilePatch) :
    (∀ c, minimizeStep accept files = some c → totalHunks c < totalHunks files) ∧
    minimizeStep accept (minimizeLoop accept files) = none :=
  ⟨fun c h => minimizeStep_some_lt accept files c h,
   minimizeLoop_fix_aux accept (totalHunks files) files (Nat.le_refl _)⟩

/-- C9 witness: a one-hunk patch whose drop is accepted. -/
theorem claim_C9_witness :
    totalHunks ([] : List FilePatch) <
      totalHunks [⟨"a/f", "b/f", [⟨1, 1, 1, 1, ["-x", "+y"]⟩]⟩] ∧
    minimizeStep (fun fs => fs.isEmpty)
      (minimizeLoop (fun fs => fs.isEmpty) [⟨"a/f", "b/f", [⟨1, 1, 1, 1, ["-x", "+y"]⟩]⟩]) =
      none :=
  ⟨(claim_C9 (fun fs => fs.isEmpty) [⟨"a/f", "b/f", [⟨1, 1, 1, 1, ["-x", "+y"]⟩]⟩]).1 [] rfl,
   (claim_C9 (fun fs => fs.isEmpty) [⟨"a/f", "b/f", [⟨1, 1, 1, 1, ["-x", "+y"]⟩]⟩]).2⟩

/-! Lemmas for the attestation round trip (C2). -/

theorem insertByKey_of_le (x : String × List Nat) (l : List (String × List Nat))
    (h : ∀ y ∈ l, charListLe x.1.data y.1.data = true) : insertByKey x l = x :: l := by
  cases l with
  | nil => rfl
  | cons y ys => simp [insertByKey, h y (List.mem_cons_self y ys)]

theorem sortByKey_eq_self (l : List (String × List Nat))
    (h : l.Pairwise (fun a b => charListLe a.1.data b.1.data = true)) : sortByKey l = l := by
  induction l with
  | nil => rfl
  | cons x xs ih =>
    have hx := (List.pairwise_cons.mp h).1
    have hxs := (List.pairwise_cons.mp h).2
    show insertByKey x (sortByKey xs) = x :: xs
    rw [ih hxs]
    exact insertByKey_of_le x xs hx

theorem pairwise_key_replace (pre post : List (String × List Nat)) (pth : String)
    (bs bs2 : List Nat)
    (h : (pre ++ (pth, bs) :: post).Pairwise (fun a b => charListLe a.1.data b.1.data = true)) :
    (pre ++ (pth, bs2) :: post).Pairwise (fun a b => charListLe a.1.data b.1.data = true) := by
  have h2 := (List.pairwise_map (f := Prod.fst)
    (R := fun a b : String => charListLe a.data b.data = true)).mpr h
  have hmapeq : (pre ++ (pth, bs) :: post).map Prod.fst =
      (pre ++ (pth, bs2) :: post).map Prod.fst := by simp
  rw [hmapeq] at h2
  exact (List.pairwise_map (f := Prod.fst)
    (R := fun a b : String => charListLe a.data b.data = true)).mp h2

/-- Whatever the signing branch, verification reports `ok = false` as soon as
the recomputed statement differs from the stored one. -/
theorem verify_ok_false_of_content (shaB : List Nat → String) (shaS : String → String)
    (hmacF : String → String → String) (env : String → Option String)
    (fls : List (String × List Nat)) (att : Attestation)
    (hne : att.statement ≠ statement_for_bundle shaB shaS fls) :
    (verify_attestation shaB shaS hmacF env { files := fls, attest := some att }).ok = false := by
  have hcv : decide (att.statement = statement_for_bundle shaB shaS fls) = false :=
    decide_eq_false hne
  simp only [verify_attestation]
  split
  · simpa using hcv
  · split
    · split
      · rfl
      · split
        · rfl
        · simp [hcv]
    · rfl

/-- Structure of a successfully created attestation. -/
theorem create_ok_cases (shaB : List Nat → String) (shaS : String → String)
    (hmacF : String → String → String) (env : String → Option String)
    (files : List (String × List Nat)) (mode key_env : String) (att : Attestation)
    (h : create_attestation shaB shaS hmacF env files mode key_env = .ok att) :
    att.statement = statement_for_bundle shaB shaS files ∧
    ((att.signing = Signing.mk "none" key_env none none) ∨
     (∃ key, env key_env = some key ∧ (key == "") = false ∧
        att.signing = Signing.mk "hmac-sha256" key_env
          (some (hmacF key (canonStatementJson (statement_for_bundle shaB shaS files))))
          (some (strTake (shaS key) 16)))) := by
  simp only [create_attestation] at h
  split at h
  · exact absurd h (by simp)
  · rename_i hmode
    split at h
    · rename_i hhm
      split at h
      · exact absurd h (by simp)
      · rename_i key henv
        split at h
        · exact absurd h (by simp)
        · rename_i hkey
          injection h with h2
          rw [← h2]
          refine ⟨rfl, Or.inr ⟨key, henv, ?_, ?_⟩⟩
          · simpa using hkey
          · simp only
            have hmodeq : toLowerAscii (pyStrip mode) = "hmac-sha256" := by simpa using hhm
            rw [hmodeq]
    · rename_i hhm
      have hmodeq : toLowerAscii (pyStrip mode) = "none" := by
        rcases not_and_or.mp hmode with h1 | h2
        · simpa using h1
        · exact absurd (by simpa using h2) (by simpa using hhm)
      injection h with h2
      rw [← h2]
      refine ⟨rfl, Or.inl ?_⟩
      simp only
      rw [hmodeq]

/-- C2: verifying a bundle directly after creating its attestation (same
signing mode, same key available under a nonempty `key_env`) reports
`ok = true`; and after mutating any byte of any non-attestation file — under
the collision-freedom hypothesis that the file's digest changes — it reports
`ok = false`.  The bundle is listed in the sorted order the Python directory
walk produces. -/
theorem claim_C2 (shaB : List Nat → String) (shaS : String → String)
    (hmacF : String → String → String) (env : String → Option String)
    (d : BundleDir) (mode key_env : String) (d2 : BundleDir)
    (hk : key_env ≠ "")
    (hcreate : createOnDir shaB shaS hmacF env d mode key_env = .ok d2) :
    (verify_attestation shaB shaS hmacF env d2).ok = true ∧
    (∀ (pre post : List (String × List Nat)) (pth : String) (bs bs2 : List Nat),
      d.files = pre ++ (pth, bs) :: post →
      d.files.Pairwise (fun a b => charListLe a.1.data b.1.data = true) →
      bs2.length = bs.length →
      shaB bs2 ≠ shaB bs →
      (verify_attestation shaB shaS hmacF env
        { files := pre ++ (pth, bs2) :: post, attest := d2.attest }).ok = false) := by
  have hco : ∃ att, create_attestation shaB shaS hmacF env d.files mode key_env = .ok att ∧
      d2 = { d with attest := some att } := by
    simp only [createOnDir] at hcreate
    cases hc : create_attestation shaB shaS hmacF env d.files mode key_env with
    | error e =>
      rw [hc] at hcreate
      exact absurd hcreate (by simp [Except.map])
    | ok att =>
      rw [hc] at hcreate
      simp only [Except.map] at hcreate
      injection hcreate with h2
      exact ⟨att, rfl, h2.symm⟩
  obtain ⟨att, hc, hd2⟩ := hco
  obtain ⟨hstmt, hsign⟩ := create_ok_cases shaB shaS hmacF env d.files mode key_env att hc
  subst hd2
  constructor
  · rcases hsign with hs | ⟨key, henv, hkey, hs⟩
    · have hmode_eval : toLowerAscii (pyStrip "none") = "none" := rfl
      simp [verify_attestation, hstmt, hs, hmode_eval]
    · have h1 : toLowerAscii (pyStrip "hmac-sha256") = "hmac-sha256" := rfl
      have hke : (key_env == "") = false := by simpa using hk
      simp [verify_attestation, hstmt, hs, h1, hke, henv, hkey]
  · intro pre post pth bs bs2 hsplit hsorted hlen hsha
    have hsorted1 : (pre ++ (pth, bs) :: post).Pairwise
        (fun a b => charListLe a.1.data b.1.data = true) := by rwa [hsplit] at hsorted
    have hsorted2 := pairwise_key_replace pre post pth bs bs2 hsorted1
    have hfiles_ne : (statement_for_bundle shaB shaS (pre ++ (pth, bs) :: post)).files ≠
        (statement_for_bundle shaB shaS (pre ++ (pth, bs2) :: post)).files := by
      simp only [statement_for_bundle, sortByKey_eq_self _ hsorted1,
        sortByKey_eq_self _ hsorted2, List.map_append, List.map_cons]
      intro heq
      have h3 := List.append_cancel_left heq
      have h4 := (List.cons.injEq _ _ _ _).mp h3
      have h5 := (Prod.mk.injEq _ _ _ _).mp h4.1
      have h6 := (FileDigest.mk.injEq _ _ _ _).mp h5.2
      exact hsha (h6.1.symm)
    have hstmt_ne : att.statement ≠
        statement_for_bundle shaB shaS (pre ++ (pth, bs2) :: post) := by
      rw [hstmt, hsplit]
      intro h
      exact hfiles_ne (congrArg Statement.files h)
    exact verify_ok_false_of_content shaB shaS hmacF env _ att hstmt_ne

/-- Concrete instantiation of the abstract digest primitives for the C2
witness: an injective rendering of the byte list. -/
def natListKey (l : List Nat) : String := joinSep "," (l.map Nat.repr)

/-- The C2 witness bundle. -/
def c2bundle : BundleDir := { files := [("f", [1]), ("g", [5])], attest := none }

/-- The C2 witness bundle after creating its attestation. -/
def c2dir : BundleDir :=
  match createOnDir natListKey (fun s => s) (fun k m => k ++ "|" ++ m) (fun _ => none)
      c2bundle "none" "K" with
  | .ok d => d
  | .error _ => ⟨[], none⟩

/-- C2 witness: round trip succeeds, and flipping the byte of `f` from 1 to 2
is detected. -/
theorem claim_C2_witness :
    (verify_attestation natListKey (fun s => s) (fun k m => k ++ "|" ++ m) (fun _ => none)
      c2dir).ok = true ∧
    (verify_attestation natListKey (fun s => s) (fun k m => k ++ "|" ++ m) (fun _ => none)
      { files := [] ++ ("f", [2]) :: [("g", [5])], attest := c2dir.attest }).ok = false :=
  have h := claim_C2 natListKey (fun s => s) (fun k m => k ++ "|" ++ m) (fun _ => none)
    c2bundle "none" "K" c2dir (by decide) rfl
  ⟨h.1, h.2 [] [("g", [5])] "f" [1] [2] rfl (by decide) rfl (by decide)⟩

/-! Lemmas for hunk-start resolution (C1). -/

theorem clampIdx_le (i : Int) (n : Nat) : clampIdx i n ≤ n := by
  unfold clampIdx
  have h1 : min i (n : Int) ≤ (n : Int) := min_le_right _ _
  have h2 : max 0 (min i (n : Int)) ≤ (n : Int) := max_le (Int.ofNat_nonneg n) h1
  exact Int.toNat_le.mpr h2

theorem strTake1_space (s : String) : (strTake s 1 == " ") = strStarts s " " := by
  obtain ⟨cs⟩ := s
  cases cs with
  | nil => rfl
  | cons d ds =>
    show (String.mk [d] == " ") = ([' '].isPrefixOf (d :: ds))
    by_cases hd : d = ' '
    · subst hd
      have h1 : (String.mk [' '] == " ") = true := by decide
      have h2 : ([' '].isPrefixOf (' ' :: ds)) = true := by simp [List.isPrefixOf]
      rw [h1, h2]
    · have h1 : (String.mk [d] == " ") = false := by
        have hne : String.mk [d] ≠ " " := by
          intro h
          apply hd
          have := congrArg String.data h
          simpa using this
        simpa using hne
      have h2 : ([' '].isPrefixOf (d :: ds)) = false := by
        simp only [List.isPrefixOf, Bool.and_eq_false_iff]
        left
        simpa using fun h => hd h.symm
      rw [h1, h2]

theorem strTake1_dash (s : String) : (strTake s 1 == "-") = strStarts s "-" := by
  obtain ⟨cs⟩ := s
  cases cs with
  | nil => rfl
  | cons d ds =>
    show (String.mk [d] == "-") = (['-'].isPrefixOf (d :: ds))
    by_cases hd : d = '-'
    · subst hd
      have h1 : (String.mk ['-'] == "-") = true := by decide
      have h2 : (['-'].isPrefixOf ('-' :: ds)) = true := by simp [List.isPrefixOf]
      rw [h1, h2]
    · have h1 : (String.mk [d] == "-") = false := by
        have hne : String.mk [d] ≠ "-" := by
          intro h
          apply hd
          have := congrArg String.data h
          simpa using this
        simpa using hne
      have h2 : (['-'].isPrefixOf (d :: ds)) = false := by
        simp only [List.isPrefixOf, Bool.and_eq_false_iff]
        left
        simpa using fun h => hd h.symm
      rw [h1, h2]

theorem canApplyAux_no_anchor (lines : List String) : ∀ (hls : List String) (cursor : Nat),
    (∀ h ∈ hls, isAnchorLine h = false) → canApplyAux lines hls cursor = true := by
  intro hls
  induction hls with
  | nil => intro cursor _; rfl
  | cons hd rest ih =>
    intro cursor hall
    have hh : isAnchorLine hd = false := hall hd (List.mem_cons_self hd rest)
    simp only [isAnchorLine, Bool.or_eq_false_iff] at hh
    rw [canApplyAux]
    rw [if_neg ?_]
    · exact ih (cursor) fun h hm => hall h (List.mem_cons_of_mem hd hm)
    · rw [Bool.or_eq_true, strTake1_space, strTake1_dash]
      simp [hh.1, hh.2]

theorem can_apply_no_anchor (lines : List String) (hunk : Hunk) (s : Nat)
    (hle : s ≤ lines.length) (hnoanc : hunk.lines.any isAnchorLine = false) :
    can_apply_hunk_at lines hunk s = true := by
  have hall : ∀ h ∈ hunk.lines, isAnchorLine h = false := by
    intro h hm
    simpa using List.any_eq_false.mp hnoanc h hm
  unfold can_apply_hunk_at
  rw [if_neg (by omega)]
  exact canApplyAux_no_anchor lines hunk.lines s hall

theorem argminDist_spec (s : Nat) (cs : List Nat) : ∀ c : Nat,
    (argminDist s c cs = c ∨ argminDist s c cs ∈ cs) ∧
    natAbsDiff (argminDist s c cs) s ≤ natAbsDiff c s ∧
    (∀ y ∈ cs, natAbsDiff (argminDist s c cs) s ≤ natAbsDiff y s) := by
  induction cs with
  | nil => intro c; exact ⟨Or.inl rfl, Nat.le_refl _, by simp⟩
  | cons x xs ih =>
    intro c
    have hx := ih (closerTo s c x)
    have hc1 : closerTo s c x = c ∨ closerTo s c x = x := by
      unfold closerTo
      split
      · exact Or.inr rfl
      · exact Or.inl rfl
    have hc2 : natAbsDiff (closerTo s c x) s ≤ natAbsDiff c s := by
      unfold closerTo natAbsDiff at *
      split <;> omega
    have hc3 : natAbsDiff (closerTo s c x) s ≤ natAbsDiff x s := by
      unfold closerTo natAbsDiff at *
      split <;> omega
    have hfold : argminDist s c (x :: xs) = argminDist s (closerTo s c x) xs := rfl
    refine ⟨?_, ?_, ?_⟩
    · rw [hfold]
      rcases hx.1 with h | h
      · rw [h]
        rcases hc1 with h2 | h2
        · exact Or.inl h2
        · exact Or.inr (by rw [h2]; exact List.mem_cons_self x xs)
      · exact Or.inr (List.mem_cons_of_mem x h)
    · rw [hfold]
      exact le_trans hx.2.1 hc2
    · intro y hy
      rw [hfold]
      rcases List.mem_cons.mp hy with h | h
      · subst h
        exact le_trans hx.2.1 hc3
      · exact hx.2.2 y h

theorem isPrefixOf_append_self (l t : List Char) : l.isPrefixOf (l ++ t) = true := by
  induction l with
  | nil => simp
  | cons a as ih => simp [List.isPrefixOf, ih]

theorem containsAux_nilpat (l : List Char) : containsAux l [] = true := by
  cases l with
  | nil => rfl
  | cons c rest => simp [containsAux, List.isPrefixOf]

theorem containsAux_split (pat v : List Char) : ∀ u : List Char,
    containsAux (u ++ (pat ++ v)) pat = true := by
  intro u
  induction u with
  | nil =>
    cases pat with
    | nil => simpa using containsAux_nilpat v
    | cons p ps =>
      show containsAux ((p :: ps) ++ v) (p :: ps) = true
      rw [List.cons_append]
      simp only [containsAux]
      rw [← List.cons_append, isPrefixOf_append_self]
      rfl
  | cons a u ih => simp [containsAux, ih]

theorem containsSub_of_split (s pat : String) (u v : List Char)
    (h : s.data = u ++ (pat.data ++ v)) : containsSub s pat = true := by
  unfold containsSub
  rw [h]
  exact containsAux_split pat.data v u

/-- C1: when the hunk's context/removal lines apply at the clamped suggested
index (`old_start - 1` plus the accumulated offset, clamped into range),
resolution returns that index; otherwise it returns an index where every
context/removal line matches and whose distance to the suggested index is
minimal among all such indices; when no index over the whole file works, it
fails with the mismatch message, which names the file and the hunk's
`old_start` (and carries up to three anchor previews by construction of
`contextMismatchMsg`). -/
theorem claim_C1 (lines : List String) (hunk : Hunk) (suggested_idx : Int) (rel_path : String) :
    (can_apply_hunk_at lines hunk (clampIdx suggested_idx lines.length) = true →
      resolve_hunk_start lines hunk suggested_idx rel_path =
        .ok (clampIdx suggested_idx lines.length)) ∧
    (can_apply_hunk_at lines hunk (clampIdx suggested_idx lines.length) = false →
      ∀ r, resolve_hunk_start lines hunk suggested_idx rel_path = .ok r →
        can_apply_hunk_at lines hunk r = true ∧
        ∀ y, y ≤ lines.length → can_apply_hunk_at lines hunk y = true →
          natAbsDiff r (clampIdx suggested_idx lines.length) ≤
            natAbsDiff y (clampIdx suggested_idx lines.length)) ∧
    (can_apply_hunk_at lines hunk (clampIdx suggested_idx lines.length) = false →
      (List.range (lines.length + 1)).filter (fun i => can_apply_hunk_at lines hunk i) = [] →
      resolve_hunk_start lines hunk suggested_idx rel_path =
        .error (contextMismatchMsg rel_path hunk)) ∧
    containsSub (contextMismatchMsg rel_path hunk) rel_path = true ∧
    containsSub (contextMismatchMsg rel_path hunk) (Nat.repr hunk.old_start) = true := by
  have hanchor : can_apply_hunk_at lines hunk (clampIdx suggested_idx lines.length) = false →
      hunk.lines.any isAnchorLine = true := by
    intro hfalse
    by_contra h
    have h2 : hunk.lines.any isAnchorLine = false := by simpa using h
    have := can_apply_no_anchor lines hunk (clampIdx suggested_idx lines.length)
      (clampIdx_le _ _) h2
    rw [this] at hfalse
    exact absurd hfalse (by simp)
  refine ⟨?_, ?_, ?_, ?_, ?_⟩
  · intro htrue
    simp only [resolve_hunk_start]
    cases hanc : hunk.lines.any isAnchorLine with
    | false => simp [hanc]
    | true => simp [hanc, htrue]
  · intro hfalse r hres
    have hanc := hanchor hfalse
    simp only [resolve_hunk_start, hanc, Bool.not_true, Bool.false_eq_true, if_false,
      hfalse] at hres
    cases hcand : (List.range (lines.length + 1)).filter
        (fun i => can_apply_hunk_at lines hunk i) with
    | nil =>
      rw [hcand] at hres
      exact absurd hres (by simp)
    | cons c cs =>
      rw [hcand] at hres
      injection hres with h2
      subst h2
      have hspec := argminDist_spec (clampIdx suggested_idx lines.length) cs c
      constructor
      · have hmem : argminDist (clampIdx suggested_idx lines.length) c cs ∈ c :: cs := by
          rcases hspec.1 with h | h
          · rw [h]; exact List.mem_cons_self c cs
          · exact List.mem_cons_of_mem c h
        rw [← hcand] at hmem
        exact (List.mem_filter.mp hmem).2
      · intro y hyle hyap
        have hymem : y ∈ c :: cs := by
          rw [← hcand]
          exact List.mem_filter.mpr ⟨List.mem_range.mpr (by omega), hyap⟩
        rcases List.mem_cons.mp hymem with h | h
        · subst h
          exact hspec.2.1
        · exact hspec.2.2 y h
  · intro hfalse hcands
    have hanc := hanchor hfalse
    simp only [resolve_hunk_start, hanc, Bool.not_true, Bool.false_eq_true, if_false,
      hfalse, hcands]
  · exact containsSub_of_split _ _ ("Context mismatch applying patch to ").data
      (("; no matching hunk anchor near old_start=" ++ Nat.repr hunk.old_start ++
        "; anchors=" ++
        (if strTake (joinSep " | "
            ((((hunk.lines.filter isAnchorLine).map fun l => pyStrip (strDrop l 1)).filter
              fun a => a ≠ "").take 3)) 220 == "" then "(none)"
         else strTake (joinSep " | "
            ((((hunk.lines.filter isAnchorLine).map fun l => pyStrip (strDrop l 1)).filter
              fun a => a ≠ "").take 3)) 220)).data)
      (by simp [contextMismatchMsg, String.data_append, List.append_assoc])
  · exact containsSub_of_split _ _
      (("Context mismatch applying patch to " ++ rel_path ++
        "; no matching hunk anchor near old_start=").data)
      (("; anchors=" ++
        (if strTake (joinSep " | "
            ((((hunk.lines.filter isAnchorLine).map fun l => pyStrip (strDrop l 1)).filter
              fun a => a ≠ "").take 3)) 220 == "" then "(none)"
         else strTake (joinSep " | "
            ((((hunk.lines.filter isAnchorLine).map fun l => pyStrip (strDrop l 1)).filter
              fun a => a ≠ "").take 3)) 220)).data)
      (by simp [contextMismatchMsg, String.data_append, List.append_assoc])

/-- Lines of the C1 witness file. -/
def c1lines : List String := ["def add(a, b):", "    return a + c"]

/-- The drifted hunk of the C1 witness (header says line 2, content sits at
line 1). -/
def c1hunk : Hunk := ⟨2, 7, 2, 7, [" def add(a, b):", "-    return a + c", "+    return a + b"]⟩

/-- A hunk whose anchors match nowhere. -/
def c1bad : Hunk := ⟨1, 1, 1, 1, ["-zzz", "+y"]⟩

/-- C1 witness: content-based relocation picks index 0 for the drifted hunk,
direct application is used when the suggested index matches, and the
no-candidate case produces the mismatch message. -/
theorem claim_C1_witness :
    can_apply_hunk_at c1lines c1hunk 0 = true ∧
    natAbsDiff 0 (clampIdx 1 c1lines.length) ≤ natAbsDiff 0 (clampIdx 1 c1lines.length) ∧
    resolve_hunk_start c1lines c1hunk 0 "math_utils.py" = .ok (clampIdx 0 c1lines.length) ∧
    resolve_hunk_start c1lines c1bad 0 "math_utils.py" =
      .error (contextMismatchMsg "math_utils.py" c1bad) ∧
    containsSub (contextMismatchMsg "math_utils.py" c1bad) "math_utils.py" = true :=
  ⟨((claim_C1 c1lines c1hunk 1 "math_utils.py").2.1 (by decide) 0 rfl).1,
   ((claim_C1 c1lines c1hunk 1 "math_utils.py").2.1 (by decide) 0 rfl).2 0 (by decide)
     (by decide),
   (claim_C1 c1lines c1hunk 0 "math_utils.py").1 (by decide),
   (claim_C1 c1lines c1bad 0 "math_utils.py").2.2.1 (by decide) (by decide),
   (claim_C1 c1lines c1bad 0 "math_utils.py").2.2.2.1⟩

/-! Lemmas for the frame property of `apply_unified_diff` (C10). -/

theorem wsUpdate_self (ws : Workspace) (k : String) (v : Option String) :
    wsUpdate ws k v k = v := by
  simp [wsUpdate]

theorem wsUpdate_ne (ws : Workspace) (k : String) (v : Option String) (q : String)
    (h : q ≠ k) : wsUpdate ws k v q = ws q := by
  simp [wsUpdate, h]

theorem applyFilePatch_ok (policy : Policy) (fp : FilePatch) (ws : Workspace)
    (ws2 : Workspace) (rel : String)
    (h : applyFilePatch policy fp ws = .ok (ws2, rel)) :
    rel = strip_ab fp.rel_path ∧
    ∃ o, fileOutcome fp (strip_ab fp.rel_path) (ws (strip_ab fp.rel_path)) = .ok o ∧
      ws2 = wsUpdate ws (strip_ab fp.rel_path) o := by
  simp only [applyFilePatch] at h
  split at h
  · exact absurd h (by simp)
  · split at h
    · exact absurd h (by simp)
    · split at h
      · exact absurd h (by simp)
      · rename_i o ho
        injection h with h2
        have hws : ws2 = wsUpdate ws (strip_ab fp.rel_path) o := (congrArg Prod.fst h2).symm
        have hrel : rel = strip_ab fp.rel_path := (congrArg Prod.snd h2).symm
        exact ⟨hrel, o, hrel ▸ ho, hws⟩

theorem fileOutcome_none_iff (fp : FilePatch) (rel : String) (old : Option String)
    (o : Option String) (h : fileOutcome fp rel old = .ok o) :
    (o = none ↔ fp.new_path = "/dev/null") := by
  simp only [fileOutcome] at h
  split at h
  · exact absurd h (by simp)
  · split at h
    · exact absurd h (by simp)
    · split at h
      · rename_i hdev
        injection h with h2
        subst h2
        simpa using hdev
      · rename_i hdev
        injection h with h2
        subst h2
        constructor
        · intro h3; exact absurd h3 (by simp)
        · intro h3; exact absurd h3 (by simpa using hdev)

theorem applyFilesGo_frame (policy : Policy) : ∀ (fs : List FilePatch) (ws : Workspace)
    (acc res : List String) (ws2 : Workspace),
    applyFilesGo policy fs ws acc = (.ok res, ws2) →
    ∀ q, (∀ fp ∈ fs, q ≠ strip_ab fp.rel_path) → ws2 q = ws q := by
  intro fs
  induction fs with
  | nil =>
    intro ws acc res ws2 h q _
    simp only [applyFilesGo] at h
    have h2 := congrArg Prod.snd h
    simp only at h2
    rw [← h2]
  | cons fp rest ih =>
    intro ws acc res ws2 h q hq
    simp only [applyFilesGo] at h
    cases happ : applyFilePatch policy fp ws with
    | error e => rw [happ] at h; exact absurd (congrArg Prod.fst h) (by simp)
    | ok pr =>
      obtain ⟨ws1, rel⟩ := pr
      rw [happ] at h
      obtain ⟨hrel, o, ho, hws1⟩ := applyFilePatch_ok policy fp ws ws1 rel happ
      have h2 := ih ws1 (acc ++ [rel]) res ws2 h q
        (fun fp2 hm => hq fp2 (List.mem_cons_of_mem fp hm))
      rw [h2, hws1]
      exact wsUpdate_ne ws _ o q (hq fp (List.mem_cons_self fp rest))

theorem applyFilesGo_named (policy : Policy) : ∀ (fs : List FilePatch) (ws : Workspace)
    (acc res : List String) (ws2 : Workspace),
    applyFilesGo policy fs ws acc = (.ok res, ws2) →
    (fs.map fun fp => strip_ab fp.rel_path).Nodup →
    ∀ fp ∈ fs, ∃ o,
      fileOutcome fp (strip_ab fp.rel_path) (ws (strip_ab fp.rel_path)) = .ok o ∧
      ws2 (strip_ab fp.rel_path) = o ∧
      (o = none ↔ fp.new_path = "/dev/null") := by
  intro fs
  induction fs with
  | nil => intro ws acc res ws2 _ _ fp hm; exact absurd hm (by simp)
  | cons fp0 rest ih =>
    intro ws acc res ws2 h hnodup fp hm
    simp only [applyFilesGo] at h
    cases happ : applyFilePatch policy fp0 ws with
    | error e => rw [happ] at h; exact absurd (congrArg Prod.fst h) (by simp)
    | ok pr =>
      obtain ⟨ws1, rel⟩ := pr
      rw [happ] at h
      obtain ⟨hrel, o, ho, hws1⟩ := applyFilePatch_ok policy fp0 ws ws1 rel happ
      have hnd : (∀ x ∈ rest, ¬strip_ab x.rel_path = strip_ab fp0.rel_path) ∧
          (rest.map fun fp3 => strip_ab fp3.rel_path).Nodup := by simpa using hnodup
      rcases List.mem_cons.mp hm with hfp | hfp
      · subst hfp
        refine ⟨o, ho, ?_, fileOutcome_none_iff fp _ _ o ho⟩
        have hfr := applyFilesGo_frame policy rest ws1 (acc ++ [rel]) res ws2 h
          (strip_ab fp.rel_path) ?_
        · rw [hfr, hws1, wsUpdate_self]
        · intro fp2 hm2 heq
          exact hnd.1 fp2 hm2 heq.symm
      · have hneq : ws1 (strip_ab fp.rel_path) = ws (strip_ab fp.rel_path) := by
          rw [hws1]
          exact wsUpdate_ne ws _ o _ (fun heq => hnd.1 fp hfp heq)
        obtain ⟨o2, ho2, hws2, hnone⟩ := ih ws1 (acc ++ [rel]) res ws2 h hnd.2 fp hfp
        rw [hneq] at ho2
        exact ⟨o2, ho2, hws2, hnone⟩

/-- C10: a successful `apply_unified_diff` changes no workspace path outside
the patch's resolved file paths; and (when those paths are distinct) each
named path ends up holding exactly the computed per-file outcome — the full
post-image, or deletion exactly for `new_path = /dev/null`. -/
theorem claim_C10 (d : String) (ws : Workspace) (policy : Policy) (parsed : ParsedPatch)
    (res : List String) (ws2 : Workspace)
    (hparse : parse_unified_diff d = .ok parsed)
    (happly : apply_unified_diff d ws policy = (.ok res, ws2)) :
    (∀ q, (∀ fp ∈ parsed.files, q ≠ strip_ab fp.rel_path) → ws2 q = ws q) ∧
    ((parsed.files.map fun fp => strip_ab fp.rel_path).Nodup →
      ∀ fp ∈ parsed.files, ∃ o,
        fileOutcome fp (strip_ab fp.rel_path) (ws (strip_ab fp.rel_path)) = .ok o ∧
        ws2 (strip_ab fp.rel_path) = o ∧
        (o = none ↔ fp.new_path = "/dev/null")) := by
  simp only [apply_unified_diff, hparse] at happly
  split at happly
  · exact absurd (congrArg Prod.fst happly) (by simp)
  · split at happly
    · exact absurd (congrArg Prod.fst happly) (by simp)
    · exact ⟨applyFilesGo_frame policy parsed.files ws [] res ws2 happly,
        fun hnd => applyFilesGo_named policy parsed.files ws [] res ws2 happly hnd⟩

/-- The C10 witness diff. -/
def c10diff : String := "--- a/src/app.py\n+++ b/src/app.py\n@@ -1,1 +1,1 @@\n-a = 1\n+a = 2\n"

/-- The C10 witness workspace: the patched file plus an unrelated file. -/
def c10ws : Workspace := fun p =>
  if p = "src/app.py" then some "a = 1\n"
  else if p = "docs/readme.md" then some "hi\n" else none

/-- The file entry the witness diff parses to. -/
def c10fp : FilePatch := ⟨"a/src/app.py", "b/src/app.py", [⟨1, 1, 1, 1, ["-a = 1", "+a = 2"]⟩]⟩

/-- C10 witness: the unrelated file is untouched and the named file holds the
computed post-image. -/
theorem claim_C10_witness :
    (apply_unified_diff c10diff c10ws {}).2 "docs/readme.md" = c10ws "docs/readme.md" ∧
    (apply_unified_diff c10diff c10ws {}).2 "src/app.py" = some "a = 2\n" := by
  have h := claim_C10 c10diff c10ws {} ⟨[c10fp]⟩
    ["src/app.py"] (apply_unified_diff c10diff c10ws {}).2 rfl rfl
  constructor
  · exact h.1 "docs/readme.md" (by decide)
  · obtain ⟨o, ho, hws, _⟩ := h.2 (by decide) c10fp (List.mem_cons_self c10fp [])
    have hov : fileOutcome c10fp (strip_ab c10fp.rel_path)
        (c10ws (strip_ab c10fp.rel_path)) = .ok (some "a = 2\n") := rfl
    rw [hov] at ho
    injection ho with ho2
    rw [← ho2] at hws
    exact hws

end VeriPatch
